import Mathlib

/-!
# fitterbap: ring buffer of u64 words and the stream stack lifecycle

Shallow embedding of `include/fitterbap/collections/ring_buffer_u64.h` and of
`src/comm/stack.c`.

* `uint32_t` values are natural numbers; every `uint32_t` addition and
  subtraction of the source is reduced modulo `2^32` (`u32_add`, `u32_sub`).
* The storage behind `uint64_t * buf` is a map from word offset to word.  A word
  is a natural number; the code only copies words, never computes with them.
* A C function that mutates `*self` and returns `bool` becomes a function that
  returns the flag together with the new structure.
-/

namespace Fitterbap

/-! ## Machine arithmetic -/

/-- Number of values of `uint32_t`. -/
abbrev UINT32_MOD : Nat := 4294967296

/-- Addition of two `uint32_t` values as C performs it. -/
def u32_add (a b : Nat) : Nat := (a + b) % UINT32_MOD

/-- Subtraction of two `uint32_t` values as C performs it. -/
def u32_sub (a b : Nat) : Nat := (a + UINT32_MOD - b % UINT32_MOD) % UINT32_MOD

/-- Word memory: the content of the word at each offset from a base pointer. -/
abbrev Words := Nat → Nat

/-- Assignment `m[i] = v`. -/
def store (m : Words) (i v : Nat) : Words :=
  fun j => if j = i then v else m j

/-- Modelled from the spec: the `fbp_memcpy` macro of `fitterbap/platform.h` is not
part of the sources at hand; the spec says that `add` copies the items into the
buffer.  It copies `n` words from `src + o` to `dst + d`, as `memcpy` does (the
byte count `n * sizeof(uint64_t)` is taken not to overflow `size_t`). -/
def fbp_memcpy (dst : Words) (d : Nat) (src : Words) (o n : Nat) : Words :=
  fun j => if d ≤ j ∧ j < d + n then src (o + (j - d)) else dst j

/-! ## ring_buffer_u64.h -/

/-- The ring buffer containing unsigned 64-bit integers (`struct fbp_rbu64_s`). -/
structure fbp_rbu64_s where
  head : Nat
  tail : Nat
  buf : Words
  buf_size : Nat

/-- Clear the buffer and discard all data. -/
def fbp_rbu64_clear (self : fbp_rbu64_s) : fbp_rbu64_s :=
  if self.tail ≥ self.buf_size then
    { self with head := 0, tail := 0 }
  else
    { self with tail := self.head }

/-- Initialize the buffer instance; every field of `*self` is overwritten. -/
def fbp_rbu64_init (buffer : Words) (buffer_size : Nat) : fbp_rbu64_s :=
  { buf := buffer, buf_size := buffer_size, head := 0, tail := 0 }

def fbp_rbu64_size (self : fbp_rbu64_s) : Nat :=
  let sz := u32_sub (u32_add self.head self.buf_size) self.tail
  if sz ≥ self.buf_size then u32_sub sz self.buf_size else sz

def fbp_rbu64_is_empty (self : fbp_rbu64_s) : Bool :=
  decide (self.head = self.tail)

def fbp_rbu64_empty_size (self : fbp_rbu64_s) : Nat :=
  u32_sub (u32_sub self.buf_size 1) (fbp_rbu64_size self)

def fbp_rbu64_capacity (self : fbp_rbu64_s) : Nat :=
  u32_sub self.buf_size 1

def fbp_rbu64_offset_incr (self : fbp_rbu64_s) (offset : Nat) : Nat :=
  let next_offset := u32_add offset 1
  if next_offset ≥ self.buf_size then 0 else next_offset

/-- The flag returned and the structure afterwards. -/
def fbp_rbu64_push (self : fbp_rbu64_s) (value : Nat) : Bool × fbp_rbu64_s :=
  let head := self.head
  let next_head := fbp_rbu64_offset_incr self head
  if next_head = self.tail then
    (false, self)
  else
    (true, { self with buf := store self.buf head value, head := next_head })

/-- The second argument is the content of `*value` before the call; the result is
the flag returned, the structure afterwards and the content of `*value`
afterwards. -/
def fbp_rbu64_pop (self : fbp_rbu64_s) (value : Nat) : Bool × fbp_rbu64_s × Nat :=
  let tail := self.tail
  if self.head = tail then
    (false, self, value)
  else
    (true, { self with tail := fbp_rbu64_offset_incr self tail }, self.buf tail)

/-- The words to add are `buffer[0 .. count-1]`. -/
def fbp_rbu64_add (self : fbp_rbu64_s) (buffer : Words) (count : Nat) : Bool × fbp_rbu64_s :=
  if count > fbp_rbu64_empty_size self then
    (false, self)
  else
    let r : fbp_rbu64_s × Nat × Nat :=
      if u32_add self.head count ≥ self.buf_size then
        let sz := u32_sub self.buf_size self.head
        ({ self with buf := fbp_memcpy self.buf self.head buffer 0 sz, head := 0 },
          sz, u32_sub count sz)
      else
        (self, 0, count)
    let self1 := r.1
    let off := r.2.1
    let count1 := r.2.2
    if count1 ≠ 0 then
      (true, { self1 with buf := fbp_memcpy self1.buf self1.head buffer off count1,
                          head := u32_add self1.head count1 })
    else
      (true, self1)

def fbp_rbu64_discard (self : fbp_rbu64_s) (count : Nat) : Bool × fbp_rbu64_s :=
  if count > fbp_rbu64_size self then
    (false, { self with tail := self.head })
  else
    let tail := u32_add self.tail count
    let tail := if tail ≥ self.buf_size then u32_sub tail self.buf_size else tail
    (true, { self with tail := tail })

/-! ## Driving the buffer -/

/-- A well-formed buffer: a storage of at least one and at most `2^31` words and
both indices inside it. -/
def WellFormed (s : fbp_rbu64_s) : Prop :=
  1 ≤ s.buf_size ∧ s.buf_size ≤ 2147483648 ∧ s.head < s.buf_size ∧ s.tail < s.buf_size

instance (s : fbp_rbu64_s) : Decidable (WellFormed s) := by
  unfold WellFormed; infer_instance

/-- Up to `n` successive calls of `fbp_rbu64_pop`, stopping at the first one that
fails: the values delivered and the structure afterwards. -/
def pop_n : Nat → fbp_rbu64_s → List Nat × fbp_rbu64_s
  | 0, s => ([], s)
  | n + 1, s =>
    match fbp_rbu64_pop s 0 with
    | (true, s1, v) => (v :: (pop_n n s1).1, (pop_n n s1).2)
    | (false, s1, _) => ([], s1)

/-- What pops deliver from here on until the buffer is empty. -/
def queued (s : fbp_rbu64_s) : List Nat :=
  (pop_n (fbp_rbu64_size s) s).1

/-- A call of `fbp_rbu64_push` or `fbp_rbu64_pop`. -/
inductive Op where
  | push (v : Nat)
  | pop
  deriving DecidableEq, Repr

/-- One call with what it returned: `push v` with its flag, `pop` with its flag
and the value delivered. -/
inductive Done where
  | push (v : Nat) (ok : Bool)
  | pop (ok : Bool) (v : Nat)
  deriving DecidableEq, Repr

/-- Perform the calls in order. -/
def exec : fbp_rbu64_s → List Op → fbp_rbu64_s × List Done
  | s, [] => (s, [])
  | s, Op.push v :: ops =>
    let r := fbp_rbu64_push s v
    ((exec r.2 ops).1, Done.push v r.1 :: (exec r.2 ops).2)
  | s, Op.pop :: ops =>
    let r := fbp_rbu64_pop s 0
    ((exec r.2.1 ops).1, Done.pop r.1 r.2.2 :: (exec r.2.1 ops).2)

/-- The values of the pushes that returned true, in call order. -/
def pushed : List Done → List Nat
  | [] => []
  | Done.push v true :: l => v :: pushed l
  | _ :: l => pushed l

/-- The values delivered by the pops that returned true, in call order. -/
def popped : List Done → List Nat
  | [] => []
  | Done.pop true v :: l => v :: popped l
  | _ :: l => popped l

/-- The calls of the capacity-3 scenario: push `A`, `B`, `C`, `D`, pop, push `D`,
then four pops. -/
def scenario_ops (A B C D : Nat) : List Op :=
  [Op.push A, Op.push B, Op.push C, Op.push D, Op.pop, Op.push D,
   Op.pop, Op.pop, Op.pop, Op.pop]

/-- Any call of the ring buffer interface that changes the structure. -/
inductive Cmd where
  | push (v : Nat)
  | pop
  | add (items : Words) (count : Nat)
  | discard (count : Nat)
  | clear

/-- The structure after one call. -/
def Cmd.run (s : fbp_rbu64_s) : Cmd → fbp_rbu64_s
  | Cmd.push v => (fbp_rbu64_push s v).2
  | Cmd.pop => (fbp_rbu64_pop s 0).2.1
  | Cmd.add items count => (fbp_rbu64_add s items count).2
  | Cmd.discard count => (fbp_rbu64_discard s count).2
  | Cmd.clear => fbp_rbu64_clear s

/-- The index `k` places after `t` in a storage of `n` words, for `t < n` and
`k ≤ n`. -/
def wrap_index (n t k : Nat) : Nat :=
  if t + k < n then t + k else t + k - n

/-! ## stack.c

The data-link, transport, port0 and pubsub-port layers, the allocator and the
event manager are collaborators outside `stack.c`.  A layer instance is named by
a number, a pointer to one is `Option Nat` with `none` for `NULL`, and every call
that `stack.c` makes to a collaborator is recorded, in order, in a list of
`Call`. -/

/-- Modelled from the spec: `enum fbp_port0_mode_e` is declared in
`fitterbap/comm/port0.h`, which is not part of the sources at hand.  The role
mode is `CLIENT` or `SERVER`; `other` stands for any other value handed over in
the enum's place. -/
inductive fbp_port0_mode_e where
  | CLIENT
  | SERVER
  | other (raw : Nat)
  deriving DecidableEq, Repr

/-- Modelled from the spec: `enum fbp_pubsubp_mode_e` is declared in
`fitterbap/comm/pubsub_port.h`, which is not part of the sources at hand.  The
direction of the pubsub bridge. -/
inductive fbp_pubsubp_mode_e where
  | UPSTREAM
  | DOWNSTREAM
  deriving DecidableEq, Repr

/-- The stack object (`struct fbp_stack_s`); `evm_api` and `pubsub` name the event
manager and the pubsub store of the caller. -/
structure fbp_stack_s where
  dl : Option Nat
  evm_api : Nat
  transport : Option Nat
  port0 : Option Nat
  pubsub : Nat
  pubsub_port : Option Nat
  deriving DecidableEq, Repr

/-- A call from `stack.c` to a collaborator, with the arguments that matter and,
where the code looks at it, the value returned. -/
inductive Call where
  | alloc_clr
  | dl_initialize (result : Option Nat)
  | transport_initialize (dl : Nat) (result : Option Nat)
  | dl_register_upper_layer (dl transport : Nat)
  | port0_initialize (mode : fbp_port0_mode_e) (dl transport : Nat) (result : Option Nat)
  | transport_port_register (transport port_id port0 : Nat) (rc : Int)
  | pubsubp_initialize (mode : fbp_pubsubp_mode_e) (result : Option Nat)
  | pubsubp_transport_register (pubsub_port port_id transport : Nat) (rc : Int)
  | dl_finalize (dl : Nat)
  | transport_finalize (transport : Nat)
  | port0_finalize (port0 : Nat)
  | pubsubp_finalize (pubsub_port : Nat)
  | free
  deriving DecidableEq, Repr

/-- What the collaborators answer during one `fbp_stack_initialize`: the instance
or `NULL` from each constructor and the return code of each registration (zero
for success). -/
structure Collaborators where
  dl_initialize : Option Nat
  transport_initialize : Option Nat
  port0_initialize : fbp_port0_mode_e → Option Nat
  transport_port_register : Int
  pubsubp_initialize : fbp_pubsubp_mode_e → Option Nat
  pubsubp_transport_register : Int

/-- The outcome of `fbp_stack_finalize`: the value returned, the collaborator
calls made, and the content of `*self` when `fbp_free` is reached (`none` for a
`NULL` argument). -/
structure Finalized where
  ret : Int
  calls : List Call
  self_at_free : Option fbp_stack_s
  deriving DecidableEq, Repr

def fbp_stack_finalize (self : Option fbp_stack_s) : Finalized :=
  match self with
  | some s =>
    let c1 := match s.dl with
      | some h => [Call.dl_finalize h]
      | none => []
    let s1 := { s with dl := none }
    let c2 := match s1.transport with
      | some h => [Call.transport_finalize h]
      | none => []
    let s2 := { s1 with transport := none }
    let c3 := match s2.port0 with
      | some h => [Call.port0_finalize h]
      | none => []
    let s3 := { s2 with port0 := none }
    let c4 := match s3.pubsub_port with
      | some h => [Call.pubsubp_finalize h]
      | none => []
    let s4 := { s3 with pubsub_port := none }
    { ret := 0, calls := c1 ++ c2 ++ c3 ++ c4 ++ [Call.free], self_at_free := some s4 }
  | none => { ret := 0, calls := [], self_at_free := none }

/-- The instance returned (`none` for `NULL`) and the collaborator calls made, in
order.  `fbp_alloc_clr` is taken to return zeroed memory, as the code takes it
to. -/
def fbp_stack_initialize (c : Collaborators) (port0_mode : fbp_port0_mode_e)
    (evm_api pubsub : Nat) : Option fbp_stack_s × List Call :=
  let self0 : fbp_stack_s :=
    { dl := none, evm_api := evm_api, transport := none, port0 := none, pubsub := pubsub,
      pubsub_port := none }
  let t0 := [Call.alloc_clr, Call.dl_initialize c.dl_initialize]
  match c.dl_initialize with
  | none => (none, t0 ++ (fbp_stack_finalize (some self0)).calls)
  | some dl =>
    let self1 := { self0 with dl := some dl }
    let t1 := t0 ++ [Call.transport_initialize dl c.transport_initialize]
    match c.transport_initialize with
    | none => (none, t1 ++ (fbp_stack_finalize (some self1)).calls)
    | some transport =>
      let self2 := { self1 with transport := some transport }
      let t2 := t1 ++ [Call.dl_register_upper_layer dl transport,
        Call.port0_initialize port0_mode dl transport (c.port0_initialize port0_mode)]
      match c.port0_initialize port0_mode with
      | none => (none, t2 ++ (fbp_stack_finalize (some self2)).calls)
      | some port0 =>
        let self3 := { self2 with port0 := some port0 }
        let t3 := t2 ++ [Call.transport_port_register transport 0 port0 c.transport_port_register]
        if c.transport_port_register ≠ 0 then
          (none, t3 ++ (fbp_stack_finalize (some self3)).calls)
        else
          let pmode : Option fbp_pubsubp_mode_e :=
            match port0_mode with
            | fbp_port0_mode_e.CLIENT => some fbp_pubsubp_mode_e.UPSTREAM
            | fbp_port0_mode_e.SERVER => some fbp_pubsubp_mode_e.DOWNSTREAM
            | fbp_port0_mode_e.other _ => none
          match pmode with
          | none => (none, t3 ++ (fbp_stack_finalize (some self3)).calls)
          | some pm =>
            let t4 := t3 ++ [Call.pubsubp_initialize pm (c.pubsubp_initialize pm)]
            match c.pubsubp_initialize pm with
            | none => (none, t4 ++ (fbp_stack_finalize (some self3)).calls)
            | some pubsub_port =>
              let self4 := { self3 with pubsub_port := some pubsub_port }
              let t5 := t4 ++ [Call.pubsubp_transport_register pubsub_port 1 transport
                c.pubsubp_transport_register]
              if c.pubsubp_transport_register ≠ 0 then
                (none, t5 ++ (fbp_stack_finalize (some self4)).calls)
              else
                (some self4, t5)

/-- The four layers that the stack owns. -/
inductive Layer where
  | dl
  | transport
  | port0
  | pubsub_port
  deriving DecidableEq, Repr

/-- The layer instance that a call constructed, if it is a constructor call that
did not return `NULL`. -/
def Call.constructs : Call → Option (Layer × Nat)
  | Call.dl_initialize (some h) => some (Layer.dl, h)
  | Call.transport_initialize _ (some h) => some (Layer.transport, h)
  | Call.port0_initialize _ _ _ (some h) => some (Layer.port0, h)
  | Call.pubsubp_initialize _ (some h) => some (Layer.pubsub_port, h)
  | _ => none

/-- The layer instance that a call finalized, if it is a finalizer call. -/
def Call.finalizes : Call → Option (Layer × Nat)
  | Call.dl_finalize h => some (Layer.dl, h)
  | Call.transport_finalize h => some (Layer.transport, h)
  | Call.port0_finalize h => some (Layer.port0, h)
  | Call.pubsubp_finalize h => some (Layer.pubsub_port, h)
  | _ => none

/-- The layer that a call tried to construct, if it is a constructor call. -/
def Call.attempts : Call → Option Layer
  | Call.dl_initialize _ => some Layer.dl
  | Call.transport_initialize _ _ => some Layer.transport
  | Call.port0_initialize _ _ _ _ => some Layer.port0
  | Call.pubsubp_initialize _ _ => some Layer.pubsub_port
  | _ => none

/-- A constructor call that returned `NULL` or a registration that returned
nonzero. -/
def Call.failed : Call → Bool
  | Call.dl_initialize none => true
  | Call.transport_initialize _ none => true
  | Call.port0_initialize _ _ _ none => true
  | Call.pubsubp_initialize _ none => true
  | Call.transport_port_register _ _ _ rc => decide (rc ≠ 0)
  | Call.pubsubp_transport_register _ _ _ rc => decide (rc ≠ 0)
  | _ => false

/-- A finalizer call or the release of the aggregate. -/
def Call.is_teardown : Call → Bool
  | Call.dl_finalize _ => true
  | Call.transport_finalize _ => true
  | Call.port0_finalize _ => true
  | Call.pubsubp_finalize _ => true
  | Call.free => true
  | _ => false

/-- How often the instance `h` of layer `l` was constructed in a trace. -/
def constructed (l : Layer) (h : Nat) (t : List Call) : Nat :=
  t.countP (fun c => decide (c.constructs = some (l, h)))

/-- How often a trace constructed layer `l`, whatever the instance. -/
def constructions (l : Layer) (t : List Call) : Nat :=
  t.countP (fun c => (c.attempts == some l) && (c.constructs).isSome)

/-- How often the instance `h` of layer `l` was finalized in a trace. -/
def finalized (l : Layer) (h : Nat) (t : List Call) : Nat :=
  t.countP (fun c => decide (c.finalizes = some (l, h)))

/-- How often the aggregate was released in a trace. -/
def frees (t : List Call) : Nat :=
  t.count Call.free

/-- Once a call has failed, only teardown calls follow it. -/
def only_teardown_after_failure : List Call → Bool
  | [] => true
  | c :: t => (!c.failed || t.all Call.is_teardown) && only_teardown_after_failure t

/-- Every step of the construction succeeds. -/
def all_steps_succeed (c : Collaborators) (port0_mode : fbp_port0_mode_e) : Prop :=
  c.dl_initialize ≠ none ∧ c.transport_initialize ≠ none ∧
  c.port0_initialize port0_mode ≠ none ∧ c.transport_port_register = 0 ∧
  ((port0_mode = fbp_port0_mode_e.CLIENT ∧
      c.pubsubp_initialize fbp_pubsubp_mode_e.UPSTREAM ≠ none) ∨
   (port0_mode = fbp_port0_mode_e.SERVER ∧
      c.pubsubp_initialize fbp_pubsubp_mode_e.DOWNSTREAM ≠ none)) ∧
  c.pubsubp_transport_register = 0

/-- The reference that the stack object holds to each of its four layers. -/
def fbp_stack_s.layer (s : fbp_stack_s) : Layer → Option Nat
  | Layer.dl => s.dl
  | Layer.transport => s.transport
  | Layer.port0 => s.port0
  | Layer.pubsub_port => s.pubsub_port

/-- The construction of a pubsub bridge for a direction that does not belong to
the role mode: `UPSTREAM` belongs to `CLIENT`, `DOWNSTREAM` to `SERVER`. -/
def Call.wrong_direction (port0_mode : fbp_port0_mode_e) : Call → Bool
  | Call.pubsubp_initialize pm _ =>
    !(decide (port0_mode = fbp_port0_mode_e.CLIENT ∧ pm = fbp_pubsubp_mode_e.UPSTREAM) ||
      decide (port0_mode = fbp_port0_mode_e.SERVER ∧ pm = fbp_pubsubp_mode_e.DOWNSTREAM))
  | _ => false

/-! ## stack.c: scheduling and processing

While the stack runs, the data-link layer and the event manager act on a state
of their own, of some type `σ`; what they answer and how they change that state
is a parameter. -/

/-- The largest `int64_t`. -/
abbrev INT64_MAX : Int := 9223372036854775807

/-- The collaborators of a running stack: `timestamp` is `evm_api.timestamp`,
the others are `fbp_evm_interval_next`, `fbp_dl_service_interval`,
`fbp_dl_process` and `fbp_evm_process`.  The event manager is named by a number,
the data-link layer by the pointer held in the stack object. -/
structure Services (σ : Type) where
  timestamp : Nat → σ → Int
  evm_interval_next : Nat → Int → σ → Int
  dl_service_interval : Option Nat → σ → Int
  dl_process : Option Nat → σ → σ
  evm_process : Nat → Int → σ → σ

/-- A collaborator call made by `fbp_stack_process`, with its arguments. -/
inductive RunCall where
  | dl_process (dl : Option Nat)
  | timestamp (evm : Nat) (result : Int)
  | evm_process (evm : Nat) (now : Int)
  deriving DecidableEq, Repr

def fbp_stack_interval_next {σ : Type} (sv : Services σ) (self : fbp_stack_s) (w : σ) : Int :=
  let now := sv.timestamp self.evm_api w
  let evm_duration := sv.evm_interval_next self.evm_api now w
  let dl_duration := sv.dl_service_interval self.dl w
  let duration := if evm_duration > dl_duration then dl_duration else evm_duration
  duration

/-- The state of the collaborators afterwards and the calls made, in order. -/
def fbp_stack_process {σ : Type} (sv : Services σ) (self : fbp_stack_s) (w : σ) :
    σ × List RunCall :=
  let w1 := sv.dl_process self.dl w
  let timestamp := sv.timestamp self.evm_api w1
  let w2 := sv.evm_process self.evm_api timestamp w1
  (w2, [RunCall.dl_process self.dl, RunCall.timestamp self.evm_api timestamp,
        RunCall.evm_process self.evm_api timestamp])

/-- A clock that `fbp_dl_process` advances by 5 and `fbp_evm_process` sets to the
time it is given; the event manager is due 7 after `now`, the data link in 3. -/
def clock_services : Services Int where
  timestamp := fun _ w => w
  evm_interval_next := fun _ now w => now + 7 - w
  dl_service_interval := fun _ _ => 3
  dl_process := fun _ w => w + 5
  evm_process := fun _ now _ => now

/-! ## Time synchronization

`src/comm/timesync.c` and its header are not part of the sources at hand, only
the test `test/comm/timesync_test.c` is.  The engine is modelled from the spec;
the test is embedded from its source.  The value of one second in time units
(`FBP_TIME_SECOND` of `fitterbap/time.h`, also absent) is a parameter `SECOND`
throughout; time values are integers and their arithmetic is taken to be exact. -/

/-- Modelled from the spec: the width at which the tick counter wraps is
implementation-defined; it is taken to be 64 bits. -/
abbrev COUNTER_MOD : Nat := 18446744073709551616

/-- Modelled from the spec: the hardware counter snapshot, a free-running tick
count `value` and the tick `frequency` in ticks per second. -/
structure fbp_time_counter_s where
  value : Nat
  frequency : Nat
  deriving DecidableEq, Repr

/-- Modelled from the spec: the time synchronization engine, a single
(counter, time) anchor and the tick frequency. -/
structure fbp_ts_s where
  anchor_counter : Nat
  anchor_time : Int
  frequency : Nat
  deriving DecidableEq, Repr

/-- Modelled from the spec: the engines that exist, each named by its position,
and the one registered as the process-wide default, if any. -/
structure TsWorld where
  instances : List fbp_ts_s
  default_instance : Option Nat
  deriving DecidableEq, Repr

/-- Modelled from the spec: the engine that a call operates on, the explicit
instance or, for `NULL`, the registered default. -/
def TsWorld.resolve (w : TsWorld) (self : Option Nat) : Option fbp_ts_s :=
  match self with
  | some h => w.instances.get? h
  | none =>
    match w.default_instance with
    | some h => w.instances.get? h
    | none => none

/-- Modelled from the spec: the counter difference `a - b` with modular
subtraction at the counter width. -/
def counter_sub (a b : Nat) : Nat :=
  (a % COUNTER_MOD + COUNTER_MOD - b % COUNTER_MOD) % COUNTER_MOD

/-- Modelled from the spec: `fbp_ts_initialize` creates an engine with
`anchor_counter = 0, anchor_time = 0` and registers it as the default.  The spec
names no frequency for a fresh engine; it is copied from the counter source, as
the test expects of an uncalibrated engine.  The result is the new instance and
the world afterwards. -/
def fbp_ts_initialize (w : TsWorld) (counter : fbp_time_counter_s) : Nat × TsWorld :=
  (w.instances.length,
   { instances := w.instances ++
       [{ anchor_counter := 0, anchor_time := 0, frequency := counter.frequency }],
     default_instance := some w.instances.length })

/-- Modelled from the spec: `fbp_ts_time` returns
`anchor_time + (counter_now - anchor_counter) * SECOND_UNIT / frequency`, with
modular subtraction on the counter term; `counter` is what the counter source
reads at the call.  There is no result when there is no engine to operate on. -/
def fbp_ts_time (SECOND : Int) (w : TsWorld) (counter : fbp_time_counter_s)
    (self : Option Nat) : Option Int :=
  match w.resolve self with
  | some ts =>
    some (ts.anchor_time
      + (counter_sub counter.value ts.anchor_counter : Int) * SECOND / (ts.frequency : Int))
  | none => none

/-- Modelled from the spec: `fbp_ts_update` for one round-trip exchange.  It is
rejected, with no state change, if `time_lower > time_upper` or if
`counter_at_receive` precedes `counter_at_send`, that is if their modular
difference is half the counter range or more.  Otherwise the anchor becomes the
midpoint of the two counter readings and the midpoint of the time window, each
rounded toward the lower value, and the frequency is refreshed from the counter
source. -/
def fbp_ts_update (w : TsWorld) (counter : fbp_time_counter_s) (self : Nat)
    (counter_at_send : Nat) (time_lower time_upper : Int) (counter_at_receive : Nat) :
    TsWorld :=
  if self < w.instances.length then
    if time_lower > time_upper ∨
        counter_sub counter_at_receive counter_at_send ≥ COUNTER_MOD / 2 then
      w
    else
      { w with
        instances := w.instances.set self
          { anchor_counter :=
              (counter_at_send % COUNTER_MOD
                + counter_sub counter_at_receive counter_at_send / 2) % COUNTER_MOD,
            anchor_time := time_lower + (time_upper - time_lower) / 2,
            frequency := counter.frequency } }
  else
    w

/-- The loop of `test_multiple_zero_noise`, `n` iterations from the counter
reading, the reference time and the world given: whether every assertion
`assert_int_equal(time, fbp_ts_time(NULL))` holds.  `MILLISECOND` is
`FBP_TIME_MILLISECOND`. -/
def zero_noise_loop (SECOND MILLISECOND : Int) (self : Nat) :
    Nat → TsWorld → fbp_time_counter_s → Int → Bool
  | 0, _, _, _ => true
  | n + 1, w, counter, time =>
    let w1 := fbp_ts_update w counter self (counter_sub counter.value 10)
      (time - MILLISECOND) (time + MILLISECOND) ((counter.value + 10) % COUNTER_MOD)
    decide (fbp_ts_time SECOND w1 counter none = some time) &&
      zero_noise_loop SECOND MILLISECOND self n w1
        { counter with value := (counter.value + 10 * counter.frequency) % COUNTER_MOD }
        (time + 10 * SECOND)

/-- The test `test_multiple_zero_noise` with `iterations` in place of 32: `SETUP`
with frequency 1000, the counter set to 60000, the time starting at one hour. -/
def test_multiple_zero_noise (SECOND MILLISECOND : Int) (iterations : Nat) : Bool :=
  let counter0 : fbp_time_counter_s := { value := 0, frequency := 1000 }
  let r := fbp_ts_initialize { instances := [], default_instance := none } counter0
  zero_noise_loop SECOND MILLISECOND r.1 iterations r.2 { counter0 with value := 60000 }
    (3600 * SECOND)

/-! ## Pushing one by one -/

/-- The calls `fbp_rbu64_push(items[0])`, ..., `fbp_rbu64_push(items[n-1])` in
order: whether all of them returned true, and the structure afterwards. -/
def push_each (s : fbp_rbu64_s) (items : Words) : Nat → Bool × fbp_rbu64_s
  | 0 => (true, s)
  | n + 1 =>
    ((push_each s items n).1 && (fbp_rbu64_push (push_each s items n).2 (items n)).1,
     (fbp_rbu64_push (push_each s items n).2 (items n)).2)

/-- How far the index `j` lies after `hd` in a storage of `n` words. -/
def offset_from (n hd j : Nat) : Nat :=
  if hd ≤ j then j - hd else j + n - hd

/-! ## Arithmetic of the indices -/

theorem size_of_wf (s : fbp_rbu64_s) (h : WellFormed s) :
    fbp_rbu64_size s =
      if s.tail ≤ s.head then s.head - s.tail else s.head + s.buf_size - s.tail := by
  obtain ⟨h1, h2, h3, h4⟩ := h
  simp only [fbp_rbu64_size, u32_add, u32_sub, UINT32_MOD]
  split_ifs <;> omega

theorem offset_incr_of_lt (s : fbp_rbu64_s) (x : Nat) (h2 : s.buf_size ≤ 2147483648)
    (hx : x < s.buf_size) :
    fbp_rbu64_offset_incr s x = if x + 1 = s.buf_size then 0 else x + 1 := by
  simp only [fbp_rbu64_offset_incr, u32_add, UINT32_MOD]
  split_ifs <;> omega

theorem capacity_of_wf (s : fbp_rbu64_s) (h : WellFormed s) :
    fbp_rbu64_capacity s = s.buf_size - 1 := by
  obtain ⟨h1, h2, h3, h4⟩ := h
  simp only [fbp_rbu64_capacity, u32_sub, UINT32_MOD]
  omega

theorem empty_size_of_wf (s : fbp_rbu64_s) (h : WellFormed s) :
    fbp_rbu64_empty_size s = s.buf_size - 1 - fbp_rbu64_size s := by
  have hs := size_of_wf s h
  obtain ⟨h1, h2, h3, h4⟩ := h
  simp only [fbp_rbu64_empty_size, u32_sub, UINT32_MOD]
  split_ifs at hs <;> omega

theorem size_lt_of_wf (s : fbp_rbu64_s) (h : WellFormed s) :
    fbp_rbu64_size s < s.buf_size := by
  have hs := size_of_wf s h
  obtain ⟨h1, h2, h3, h4⟩ := h
  split_ifs at hs <;> omega

/-! ## What the buffer holds -/

theorem wrap_index_succ (n t k : Nat) (ht : t < n) (hk : k < n) :
    wrap_index n (wrap_index n t 1) k = wrap_index n t (k + 1) := by
  simp only [wrap_index]
  split_ifs <;> omega

theorem wrap_index_zero (n t : Nat) (ht : t < n) : wrap_index n t 0 = t := by
  simp only [wrap_index, Nat.add_zero]
  split_ifs
  rfl

theorem push_fail_state (s : fbp_rbu64_s) (v : Nat) (hp : (fbp_rbu64_push s v).1 = false) :
    (fbp_rbu64_push s v).2 = s := by
  simp only [fbp_rbu64_push] at hp ⊢
  split_ifs at hp ⊢ with hf
  rfl

theorem pop_fail_state (s : fbp_rbu64_s) (out : Nat) (hp : (fbp_rbu64_pop s out).1 = false) :
    (fbp_rbu64_pop s out).2.1 = s ∧ (fbp_rbu64_pop s out).2.2 = out := by
  simp only [fbp_rbu64_pop] at hp ⊢
  split_ifs at hp ⊢ with hf
  exact ⟨rfl, rfl⟩

theorem pop_of_nonempty (s : fbp_rbu64_s) (out : Nat) (h : WellFormed s)
    (hn : 0 < fbp_rbu64_size s) :
    fbp_rbu64_pop s out =
      (true, { s with tail := wrap_index s.buf_size s.tail 1 }, s.buf s.tail) := by
  have hs := size_of_wf s h
  have hi := offset_incr_of_lt s s.tail h.2.1 h.2.2.2
  obtain ⟨h1, h2, h3, h4⟩ := h
  have hne : ¬ s.head = s.tail := by
    intro e
    rw [e] at hs
    simp at hs
    omega
  simp only [fbp_rbu64_pop, hne, if_false, hi, wrap_index]
  congr 3
  split_ifs <;> omega

theorem size_set_tail (s : fbp_rbu64_s) (h : WellFormed s) (k : Nat)
    (hk : k ≤ fbp_rbu64_size s) :
    WellFormed { s with tail := wrap_index s.buf_size s.tail k } ∧
    fbp_rbu64_size { s with tail := wrap_index s.buf_size s.tail k } = fbp_rbu64_size s - k := by
  have hs := size_of_wf s h
  obtain ⟨hd, tl, bf, bs⟩ := s
  obtain ⟨h1, h2, h3, h4⟩ := h
  dsimp only at h1 h2 h3 h4 hs
  have hw : WellFormed ⟨hd, wrap_index bs tl k, bf, bs⟩ := by
    simp only [WellFormed, wrap_index]
    split_ifs at hs ⊢ <;> omega
  refine ⟨hw, ?_⟩
  rw [size_of_wf _ hw, hs]
  simp only [wrap_index]
  split_ifs at hs ⊢ <;> omega

theorem pop_n_of_le (n : Nat) (s : fbp_rbu64_s) (h : WellFormed s)
    (hn : n ≤ fbp_rbu64_size s) :
    pop_n n s =
      ((List.range n).map (fun k => s.buf (wrap_index s.buf_size s.tail k)),
        { s with tail := wrap_index s.buf_size s.tail n }) := by
  induction n generalizing s with
  | zero =>
    simp [pop_n, wrap_index_zero _ _ h.2.2.2]
  | succ n ih =>
    have hl := size_lt_of_wf s h
    have h1 := size_set_tail s h 1 (by omega)
    rw [pop_n, pop_of_nonempty s 0 h (by omega)]
    dsimp only
    rw [ih _ h1.1 (by rw [h1.2]; omega)]
    dsimp only
    rw [List.range_succ_eq_map, List.map_cons, List.map_map]
    rw [wrap_index_zero _ _ h.2.2.2, wrap_index_succ _ _ _ h.2.2.2 (by omega)]
    congr 2
    apply List.map_congr_left
    intro k hk
    rw [List.mem_range] at hk
    simp only [Function.comp]
    rw [wrap_index_succ _ _ _ h.2.2.2 (by omega)]

theorem queued_eq (s : fbp_rbu64_s) (h : WellFormed s) :
    queued s =
      (List.range (fbp_rbu64_size s)).map (fun k => s.buf (wrap_index s.buf_size s.tail k)) := by
  rw [queued, pop_n_of_le _ s h (le_refl _)]

theorem queued_length (s : fbp_rbu64_s) (h : WellFormed s) :
    (queued s).length = fbp_rbu64_size s := by
  rw [queued_eq s h]
  simp

theorem push_ok (s : fbp_rbu64_s) (v : Nat) (h : WellFormed s)
    (hp : (fbp_rbu64_push s v).1 = true) :
    WellFormed (fbp_rbu64_push s v).2 ∧
    fbp_rbu64_size (fbp_rbu64_push s v).2 = fbp_rbu64_size s + 1 ∧
    queued (fbp_rbu64_push s v).2 = queued s ++ [v] := by
  have hs := size_of_wf s h
  have hi := offset_incr_of_lt s s.head h.2.1 h.2.2.1
  have hq := queued_eq s h
  obtain ⟨hd, tl, bf, bs⟩ := s
  obtain ⟨h1, h2, h3, h4⟩ := h
  dsimp only at h1 h2 h3 h4 hs hi
  simp only [fbp_rbu64_push] at hp ⊢
  by_cases hf : fbp_rbu64_offset_incr ⟨hd, tl, bf, bs⟩ hd = tl
  · simp [hf] at hp
  · simp only [hf, if_false]
    rw [hi] at hf ⊢
    have hw : WellFormed ⟨if hd + 1 = bs then 0 else hd + 1, tl, store bf hd v, bs⟩ := by
      simp only [WellFormed]
      split_ifs <;> omega
    have hsz : fbp_rbu64_size ⟨if hd + 1 = bs then 0 else hd + 1, tl, store bf hd v, bs⟩
        = fbp_rbu64_size ⟨hd, tl, bf, bs⟩ + 1 := by
      rw [size_of_wf _ hw, hs]
      dsimp only
      split_ifs at hf ⊢ <;> omega
    refine ⟨hw, hsz, ?_⟩
    rw [queued_eq _ hw, hsz, hq, List.range_succ, List.map_append]
    dsimp only
    congr 1
    · apply List.map_congr_left
      intro k hk
      rw [List.mem_range] at hk
      have : wrap_index bs tl k ≠ hd := by
        simp only [wrap_index]
        split_ifs at hs ⊢ <;> omega
      simp [store, this]
    · have : wrap_index bs tl (fbp_rbu64_size ⟨hd, tl, bf, bs⟩) = hd := by
        simp only [wrap_index]
        split_ifs at hs ⊢ <;> omega
      simp [store, this]

theorem pop_ok (s : fbp_rbu64_s) (out : Nat) (h : WellFormed s)
    (hp : (fbp_rbu64_pop s out).1 = true) :
    WellFormed (fbp_rbu64_pop s out).2.1 ∧
    fbp_rbu64_size (fbp_rbu64_pop s out).2.1 + 1 = fbp_rbu64_size s ∧
    queued s = (fbp_rbu64_pop s out).2.2 :: queued (fbp_rbu64_pop s out).2.1 := by
  have hs := size_of_wf s h
  have hpos : 0 < fbp_rbu64_size s := by
    by_contra hz
    have : s.head = s.tail := by
      obtain ⟨h1, h2, h3, h4⟩ := h
      split_ifs at hs <;> omega
    simp [fbp_rbu64_pop, this] at hp
  have h1 := size_set_tail s h 1 (by omega)
  rw [pop_of_nonempty s out h hpos]
  dsimp only
  refine ⟨h1.1, by rw [h1.2]; omega, ?_⟩
  have hq : queued s = (pop_n (fbp_rbu64_size { s with tail := wrap_index s.buf_size s.tail 1 } + 1) s).1 := by
    rw [queued, h1.2]
    congr 2
    omega
  rw [hq, pop_n, pop_of_nonempty s 0 h hpos]
  rfl

theorem exec_fifo (ops : List Op) (s : fbp_rbu64_s) (h : WellFormed s) :
    WellFormed (exec s ops).1 ∧
    queued s ++ pushed (exec s ops).2 = popped (exec s ops).2 ++ queued (exec s ops).1 := by
  induction ops generalizing s with
  | nil => simp [exec, pushed, popped, h]
  | cons op ops ih =>
    cases op with
    | push v =>
      simp only [exec]
      cases hp : (fbp_rbu64_push s v).1 with
      | true =>
        have hk := push_ok s v h hp
        have := ih _ hk.1
        refine ⟨this.1, ?_⟩
        simp only [pushed, popped]
        rw [← this.2, hk.2.2]
        simp
      | false =>
        have he : (fbp_rbu64_push s v).2 = s := push_fail_state s v hp
        rw [he]
        have := ih _ h
        refine ⟨this.1, ?_⟩
        simp only [pushed, popped]
        exact this.2
    | pop =>
      simp only [exec]
      cases hp : (fbp_rbu64_pop s 0).1 with
      | true =>
        have hk := pop_ok s 0 h hp
        have := ih _ hk.1
        refine ⟨this.1, ?_⟩
        simp only [pushed, popped]
        rw [hk.2.2, List.cons_append, this.2]
        simp
      | false =>
        have he : (fbp_rbu64_pop s 0).2.1 = s := (pop_fail_state s 0 hp).1
        rw [he]
        have := ih _ h
        refine ⟨this.1, ?_⟩
        simp only [pushed, popped]
        exact this.2

theorem init_wf (buffer : Words) (L : Nat) (h1 : 1 ≤ L) (h2 : L ≤ 2147483648) :
    WellFormed (fbp_rbu64_init buffer L) := by
  simp only [WellFormed, fbp_rbu64_init]
  omega

theorem queued_init (buffer : Words) (L : Nat) (h1 : 1 ≤ L) (h2 : L ≤ 2147483648) :
    queued (fbp_rbu64_init buffer L) = [] := by
  have hw := init_wf buffer L h1 h2
  have hl := queued_length _ hw
  rw [size_of_wf _ hw] at hl
  simp only [fbp_rbu64_init] at hl
  simpa using hl

theorem exec_from_init (buffer : Words) (L : Nat) (ops : List Op) (h1 : 1 ≤ L)
    (h2 : L ≤ 2147483648) :
    (popped (exec (fbp_rbu64_init buffer L) ops).2).length
        ≤ (pushed (exec (fbp_rbu64_init buffer L) ops).2).length ∧
    fbp_rbu64_size (exec (fbp_rbu64_init buffer L) ops).1
        = (pushed (exec (fbp_rbu64_init buffer L) ops).2).length
          - (popped (exec (fbp_rbu64_init buffer L) ops).2).length ∧
    pushed (exec (fbp_rbu64_init buffer L) ops).2
        = popped (exec (fbp_rbu64_init buffer L) ops).2
          ++ queued (exec (fbp_rbu64_init buffer L) ops).1 := by
  have hw := init_wf buffer L h1 h2
  have hf := exec_fifo ops _ hw
  rw [queued_init buffer L h1 h2, List.nil_append] at hf
  have hl := queued_length _ hf.1
  have hlen := congrArg List.length hf.2
  rw [List.length_append] at hlen
  exact ⟨by omega, by omega, hf.2⟩

/-! ## FIFO order -/

/-- C1: starting from `fbp_rbu64_init` on a storage of `L` words, `2 ≤ L ≤ 2^31`,
for every finite sequence of push and pop calls and after every call of it (every
prefix `ops.take k`): `fbp_rbu64_size` is the number of pushes that returned true
minus the number of pops that returned true, and the values delivered by the
successful pops, followed by what further pops would deliver, are the
successfully pushed values in the order they were pushed.  In the scenario on a
4-word storage the pushes of `A`, `B`, `C` succeed, the push of `D` fails and
changes nothing, the pop gives `A`, the push of `D` succeeds, the pops give `B`,
`C`, `D`, then the buffer is empty and a further pop fails. -/
theorem push_pop_fifo (L : Nat) (buffer : Words) (ops : List Op) (hL : 2 ≤ L)
    (hU : L ≤ 2147483648) :
    (∀ k : Nat,
      (popped (exec (fbp_rbu64_init buffer L) (ops.take k)).2).length
          ≤ (pushed (exec (fbp_rbu64_init buffer L) (ops.take k)).2).length ∧
      fbp_rbu64_size (exec (fbp_rbu64_init buffer L) (ops.take k)).1
          = (pushed (exec (fbp_rbu64_init buffer L) (ops.take k)).2).length
            - (popped (exec (fbp_rbu64_init buffer L) (ops.take k)).2).length ∧
      pushed (exec (fbp_rbu64_init buffer L) (ops.take k)).2
          = popped (exec (fbp_rbu64_init buffer L) (ops.take k)).2
            ++ queued (exec (fbp_rbu64_init buffer L) (ops.take k)).1) ∧
    (∀ A B C D : Nat,
      (exec (fbp_rbu64_init buffer 4) (scenario_ops A B C D)).2
        = [Done.push A true, Done.push B true, Done.push C true, Done.push D false,
           Done.pop true A, Done.push D true, Done.pop true B, Done.pop true C,
           Done.pop true D, Done.pop false 0] ∧
      (exec (fbp_rbu64_init buffer 4) [Op.push A, Op.push B, Op.push C, Op.push D]).1
        = (exec (fbp_rbu64_init buffer 4) [Op.push A, Op.push B, Op.push C]).1 ∧
      fbp_rbu64_is_empty (exec (fbp_rbu64_init buffer 4) (scenario_ops A B C D)).1 = true ∧
      fbp_rbu64_size (exec (fbp_rbu64_init buffer 4) (scenario_ops A B C D)).1 = 0) := by
  refine ⟨fun k => exec_from_init buffer L (ops.take k) (by omega) hU, ?_⟩
  intro A B C D
  simp [scenario_ops, exec, fbp_rbu64_push, fbp_rbu64_pop, fbp_rbu64_init,
    fbp_rbu64_offset_incr, u32_add, u32_sub, UINT32_MOD, store, fbp_rbu64_is_empty,
    fbp_rbu64_size]

/-- C1 on a 4-word storage: the first nine calls of the scenario with the values 11, 12, 13, 14. -/
theorem push_pop_fifo_witness :
    (exec (fbp_rbu64_init (fun _ => 0) 4) ((scenario_ops 11 12 13 14).take 9)).2
      = [Done.push 11 true, Done.push 12 true, Done.push 13 true, Done.push 14 false,
         Done.pop true 11, Done.push 14 true, Done.pop true 12, Done.pop true 13,
         Done.pop true 14] ∧
    pushed (exec (fbp_rbu64_init (fun _ => 0) 4) ((scenario_ops 11 12 13 14).take 9)).2
      = popped (exec (fbp_rbu64_init (fun _ => 0) 4) ((scenario_ops 11 12 13 14).take 9)).2
        ++ queued (exec (fbp_rbu64_init (fun _ => 0) 4) ((scenario_ops 11 12 13 14).take 9)).1 :=
  ⟨by decide,
   ((push_pop_fifo 4 (fun _ => 0) (scenario_ops 11 12 13 14) (by decide) (by decide)).1 9).2.2⟩

/-! ## Bulk add and discard -/

theorem add_eq (s : fbp_rbu64_s) (items : Words) (count : Nat) (h : WellFormed s)
    (hc : count ≤ fbp_rbu64_empty_size s) :
    fbp_rbu64_add s items count =
      (true,
        if s.head + count < s.buf_size then
          (if count = 0 then s
           else { s with buf := fbp_memcpy s.buf s.head items 0 count, head := s.head + count })
        else
          (if count = s.buf_size - s.head then
             { s with buf := fbp_memcpy s.buf s.head items 0 (s.buf_size - s.head), head := 0 }
           else
             { s with
               buf := fbp_memcpy (fbp_memcpy s.buf s.head items 0 (s.buf_size - s.head)) 0 items
                        (s.buf_size - s.head) (count - (s.buf_size - s.head)),
               head := count - (s.buf_size - s.head) })) := by
  have hs := size_of_wf s h
  have he := empty_size_of_wf s h
  obtain ⟨hd, tl, bf, bs⟩ := s
  obtain ⟨h1, h2, h3, h4⟩ := h
  dsimp only at h1 h2 h3 h4 hs he ⊢
  have hnot : ¬ count > fbp_rbu64_empty_size ⟨hd, tl, bf, bs⟩ := by omega
  have e1 : (hd + count) % 4294967296 = hd + count := by omega
  have e2 : (bs + 4294967296 - hd % 4294967296) % 4294967296 = bs - hd := by omega
  simp only [fbp_rbu64_add, hnot, if_false, u32_add, u32_sub, UINT32_MOD, e1, e2]
  by_cases hlt : hd + count < bs
  · have hge : ¬ hd + count ≥ bs := by omega
    simp only [hlt, hge, if_true, if_false]
    by_cases h0 : count = 0
    · simp [h0]
    · simp [h0]
      omega
  · have hge : hd + count ≥ bs := by omega
    have e3 : (count + 4294967296 - (bs - hd) % 4294967296) % 4294967296 = count - (bs - hd) := by
      omega
    simp only [hlt, hge, if_true, if_false, e3]
    by_cases h0 : count = bs - hd
    · have : count - (bs - hd) = 0 := by omega
      simp [h0]
    · have : ¬ count - (bs - hd) = 0 := by omega
      simp [h0, this]
      omega

theorem add_ok (s : fbp_rbu64_s) (items : Words) (count : Nat) (h : WellFormed s)
    (hc : count ≤ fbp_rbu64_empty_size s) :
    (fbp_rbu64_add s items count).1 = true ∧
    (fbp_rbu64_add s items count).2.tail = s.tail ∧
    (fbp_rbu64_add s items count).2.buf_size = s.buf_size ∧
    (fbp_rbu64_add s items count).2.head = wrap_index s.buf_size s.head count ∧
    (∀ k, k < fbp_rbu64_size s →
      (fbp_rbu64_add s items count).2.buf (wrap_index s.buf_size s.tail k)
        = s.buf (wrap_index s.buf_size s.tail k)) ∧
    (∀ k, k < count →
      (fbp_rbu64_add s items count).2.buf
          (wrap_index s.buf_size s.tail (fbp_rbu64_size s + k)) = items k) := by
  have hs := size_of_wf s h
  have he := empty_size_of_wf s h
  rw [add_eq s items count h hc]
  obtain ⟨hd, tl, bf, bs⟩ := s
  obtain ⟨h1, h2, h3, h4⟩ := h
  dsimp only at h1 h2 h3 h4 hs he ⊢
  refine ⟨rfl, ?_, ?_, ?_, ?_, ?_⟩
  · split_ifs <;> rfl
  · split_ifs <;> rfl
  · simp only [wrap_index]
    split_ifs at hs ⊢ <;> (try dsimp only at *) <;> omega
  · intro k hk
    simp only [wrap_index]
    split_ifs at hs ⊢ <;> (try dsimp only at *) <;> (try simp only [fbp_memcpy]) <;>
      (try split_ifs) <;>
      first
        | rfl
        | (exfalso; omega)
  · intro k hk
    simp only [wrap_index]
    split_ifs at hs ⊢ <;> (try dsimp only at *) <;> (try simp only [fbp_memcpy]) <;>
      (try split_ifs) <;>
      first
        | rfl
        | (exfalso; omega)
        | (congr 1; omega)

theorem add_queued (s : fbp_rbu64_s) (items : Words) (count : Nat) (h : WellFormed s)
    (hc : count ≤ fbp_rbu64_empty_size s) :
    WellFormed (fbp_rbu64_add s items count).2 ∧
    fbp_rbu64_size (fbp_rbu64_add s items count).2 = fbp_rbu64_size s + count ∧
    queued (fbp_rbu64_add s items count).2 = queued s ++ (List.range count).map items := by
  have hs := size_of_wf s h
  have he := empty_size_of_wf s h
  have hl := size_lt_of_wf s h
  obtain ⟨_, ht, hb, hh, hkeep, hnew⟩ := add_ok s items count h hc
  have hw : WellFormed (fbp_rbu64_add s items count).2 := by
    obtain ⟨h1, h2, h3, h4⟩ := h
    simp only [WellFormed, ht, hb, hh, wrap_index]
    split_ifs <;> omega
  have hsz : fbp_rbu64_size (fbp_rbu64_add s items count).2 = fbp_rbu64_size s + count := by
    obtain ⟨h1, h2, h3, h4⟩ := h
    rw [size_of_wf _ hw, ht, hh, hs]
    simp only [wrap_index]
    split_ifs at hs ⊢ <;> omega
  refine ⟨hw, hsz, ?_⟩
  rw [queued_eq _ hw, queued_eq s h, hsz, List.range_add, List.map_append, List.map_map, ht, hb]
  congr 1
  · apply List.map_congr_left
    intro k hk
    rw [List.mem_range] at hk
    exact hkeep k hk
  · apply List.map_congr_left
    intro k hk
    rw [List.mem_range] at hk
    simp only [Function.comp]
    exact hnew k hk

theorem wrap_index_add (n t a b : Nat) (ht : t < n) (hab : a + b < n) :
    wrap_index n (wrap_index n t a) b = wrap_index n t (a + b) := by
  simp only [wrap_index]
  split_ifs <;> omega

theorem discard_ok (s : fbp_rbu64_s) (n : Nat) (h : WellFormed s)
    (hn : n ≤ fbp_rbu64_size s) :
    fbp_rbu64_discard s n = (true, { s with tail := wrap_index s.buf_size s.tail n }) := by
  have hs := size_of_wf s h
  obtain ⟨hd, tl, bf, bs⟩ := s
  obtain ⟨h1, h2, h3, h4⟩ := h
  dsimp only at h1 h2 h3 h4 hs ⊢
  have hnot : ¬ n > fbp_rbu64_size ⟨hd, tl, bf, bs⟩ := by omega
  simp only [fbp_rbu64_discard, hnot, if_false, u32_add, u32_sub, UINT32_MOD, wrap_index]
  congr 2
  split_ifs at hs ⊢ <;> omega

theorem queued_split (s : fbp_rbu64_s) (n : Nat) (h : WellFormed s)
    (hn : n ≤ fbp_rbu64_size s) :
    queued s = (pop_n n s).1 ++ queued (pop_n n s).2 := by
  have hl := size_lt_of_wf s h
  have ht := size_set_tail s h n hn
  rw [pop_n_of_le n s h hn]
  dsimp only
  rw [queued_eq s h, queued_eq _ ht.1, ht.2]
  dsimp only
  have : fbp_rbu64_size s = n + (fbp_rbu64_size s - n) := by omega
  conv_lhs => rw [this, List.range_add, List.map_append, List.map_map]
  congr 1
  apply List.map_congr_left
  intro k hk
  rw [List.mem_range] at hk
  simp only [Function.comp]
  rw [wrap_index_add _ _ _ _ h.2.2.2 (by omega)]

/-- C3: in a well-formed buffer `fbp_rbu64_add(items, count)` returns false exactly
when `count > fbp_rbu64_empty_size()`; when it returns false the structure (head,
tail, every storage word) is unchanged; when it returns true, tail and `buf_size`
are unchanged, `size()` has grown by exactly `count`, and what subsequent pops
return is what was queued before followed by `items[0..count-1]` in order. -/
theorem add_all_or_nothing (s : fbp_rbu64_s) (items : Words) (count : Nat)
    (h : WellFormed s) :
    ((fbp_rbu64_add s items count).1 = false ↔ count > fbp_rbu64_empty_size s) ∧
    ((fbp_rbu64_add s items count).1 = false → (fbp_rbu64_add s items count).2 = s) ∧
    ((fbp_rbu64_add s items count).1 = true →
      (fbp_rbu64_add s items count).2.tail = s.tail ∧
      (fbp_rbu64_add s items count).2.buf_size = s.buf_size ∧
      fbp_rbu64_size (fbp_rbu64_add s items count).2 = fbp_rbu64_size s + count ∧
      queued (fbp_rbu64_add s items count).2 = queued s ++ (List.range count).map items) := by
  by_cases hc : count > fbp_rbu64_empty_size s
  · have hf : fbp_rbu64_add s items count = (false, s) := by
      simp [fbp_rbu64_add, hc]
    rw [hf]
    simp [hc]
  · have hle : count ≤ fbp_rbu64_empty_size s := by omega
    have hk := add_ok s items count h hle
    have hq := add_queued s items count h hle
    refine ⟨?_, ?_, ?_⟩
    · rw [hk.1]
      simp [hc]
    · rw [hk.1]
      simp
    · intro _
      exact ⟨hk.2.1, hk.2.2.1, hq.2.1, hq.2.2⟩

/-- C3 at a buffer with head 3 and tail 2 in 4 words: adding two words crosses the end of storage. -/
theorem add_all_or_nothing_witness :
    queued (fbp_rbu64_add { head := 3, tail := 2, buf := fun i => i + 10, buf_size := 4 }
        (fun i => i + 70) 2).2
      = queued { head := 3, tail := 2, buf := fun i => i + 10, buf_size := 4 }
        ++ (List.range 2).map (fun i => i + 70) ∧
    (fbp_rbu64_add { head := 3, tail := 2, buf := fun i => i + 10, buf_size := 4 }
        (fun i => i + 70) 2).2.head = 1 :=
  ⟨((add_all_or_nothing { head := 3, tail := 2, buf := fun i => i + 10, buf_size := 4 }
      (fun i => i + 70) 2 (by decide)).2.2 (by decide)).2.2.2,
   by decide⟩

/-- C4: in a well-formed buffer, if `n <= size()` then `fbp_rbu64_discard(n)`
returns true, leaves head, storage and `buf_size` unchanged, reduces `size()` by
exactly `n` and leaves the structure that `n` successive pops leave, so that what
was queued is what those pops deliver followed by what is still queued; if
`n > size()` then it returns false and afterwards `tail == head` and
`size() == 0`. -/
theorem discard_spec (s : fbp_rbu64_s) (n : Nat) (h : WellFormed s) :
    (n ≤ fbp_rbu64_size s →
      (fbp_rbu64_discard s n).1 = true ∧
      (fbp_rbu64_discard s n).2.head = s.head ∧
      (fbp_rbu64_discard s n).2.buf = s.buf ∧
      (fbp_rbu64_discard s n).2.buf_size = s.buf_size ∧
      fbp_rbu64_size (fbp_rbu64_discard s n).2 = fbp_rbu64_size s - n ∧
      (fbp_rbu64_discard s n).2 = (pop_n n s).2 ∧
      queued s = (pop_n n s).1 ++ queued (fbp_rbu64_discard s n).2) ∧
    (n > fbp_rbu64_size s →
      (fbp_rbu64_discard s n).1 = false ∧
      (fbp_rbu64_discard s n).2.tail = (fbp_rbu64_discard s n).2.head ∧
      (fbp_rbu64_discard s n).2.head = s.head ∧
      fbp_rbu64_size (fbp_rbu64_discard s n).2 = 0) := by
  constructor
  · intro hn
    have hd := discard_ok s n h hn
    have hp := pop_n_of_le n s h hn
    have ht := size_set_tail s h n hn
    have hq := queued_split s n h hn
    rw [hd]
    rw [hp] at hq ⊢
    exact ⟨rfl, rfl, rfl, rfl, ht.2, rfl, hq⟩
  · intro hn
    have hf : fbp_rbu64_discard s n = (false, { s with tail := s.head }) := by
      simp [fbp_rbu64_discard, hn]
    rw [hf]
    have hw : WellFormed { s with tail := s.head } := ⟨h.1, h.2.1, h.2.2.1, h.2.2.1⟩
    refine ⟨rfl, rfl, rfl, ?_⟩
    rw [size_of_wf _ hw]
    simp

/-- C4 at a buffer holding three words: discarding nine of them empties it. -/
theorem discard_spec_witness :
    (fbp_rbu64_discard { head := 1, tail := 2, buf := fun i => i + 10, buf_size := 4 } 2).2.tail
      = 0 ∧
    fbp_rbu64_size
      (fbp_rbu64_discard { head := 1, tail := 2, buf := fun i => i + 10, buf_size := 4 } 9).2
      = 0 :=
  ⟨by decide,
   ((discard_spec { head := 1, tail := 2, buf := fun i => i + 10, buf_size := 4 } 9
      (by decide)).2 (by decide)).2.2.2⟩

/-! ## Success conditions, atomic failure, occupancy -/

/-- C2: in a well-formed buffer `fbp_rbu64_push` returns true exactly when
`size() < capacity()` held before the call, and `fbp_rbu64_pop` returns true
exactly when `size() > 0` held before the call. -/
theorem push_pop_success_iff (s : fbp_rbu64_s) (v out : Nat) (h : WellFormed s) :
    ((fbp_rbu64_push s v).1 = true ↔ fbp_rbu64_size s < fbp_rbu64_capacity s) ∧
    ((fbp_rbu64_pop s out).1 = true ↔ 0 < fbp_rbu64_size s) := by
  have hs := size_of_wf s h
  have hc := capacity_of_wf s h
  have hi := offset_incr_of_lt s s.head h.2.1 h.2.2.1
  obtain ⟨h1, h2, h3, h4⟩ := h
  constructor
  · simp only [fbp_rbu64_push]
    split_ifs with hf <;> simp <;> split_ifs at hs hi <;> omega
  · simp only [fbp_rbu64_pop]
    split_ifs with hf <;> simp <;> split_ifs at hs <;> omega

/-- C2 at a freshly initialized 4-word buffer. -/
theorem push_pop_success_iff_witness :
    WellFormed (fbp_rbu64_init (fun _ => 0) 4) ∧
    (((fbp_rbu64_push (fbp_rbu64_init (fun _ => 0) 4) 7).1 = true ↔
        fbp_rbu64_size (fbp_rbu64_init (fun _ => 0) 4)
          < fbp_rbu64_capacity (fbp_rbu64_init (fun _ => 0) 4)) ∧
      ((fbp_rbu64_pop (fbp_rbu64_init (fun _ => 0) 4) 0).1 = true ↔
        0 < fbp_rbu64_size (fbp_rbu64_init (fun _ => 0) 4))) :=
  ⟨by decide, push_pop_success_iff (fbp_rbu64_init (fun _ => 0) 4) 7 0 (by decide)⟩

/-- C5: a `fbp_rbu64_push` that returns false, which it does exactly when
`next(head) == tail`, leaves the whole structure (head, tail, every storage word)
as it was; a `fbp_rbu64_pop` that returns false, which it does exactly when
`head == tail`, leaves the whole structure and the caller's output value as they
were.  This holds in every state, well-formed or not. -/
theorem failed_push_pop_atomic (s : fbp_rbu64_s) (v out : Nat) :
    ((fbp_rbu64_push s v).1 = false ↔ fbp_rbu64_offset_incr s s.head = s.tail) ∧
    ((fbp_rbu64_push s v).1 = false → (fbp_rbu64_push s v).2 = s) ∧
    ((fbp_rbu64_pop s out).1 = false ↔ s.head = s.tail) ∧
    ((fbp_rbu64_pop s out).1 = false →
      (fbp_rbu64_pop s out).2.1 = s ∧ (fbp_rbu64_pop s out).2.2 = out) := by
  refine ⟨?_, ?_, ?_, ?_⟩
  · simp only [fbp_rbu64_push]
    split_ifs with hf <;> simp [hf]
  · simp only [fbp_rbu64_push]
    split_ifs with hf <;> simp
  · simp only [fbp_rbu64_pop]
    split_ifs with hf <;> simp [hf]
  · simp only [fbp_rbu64_pop]
    split_ifs with hf <;> simp

/-- C5 at a full buffer (push) and at an empty one (pop). -/
theorem failed_push_pop_atomic_witness :
    (fbp_rbu64_push { head := 3, tail := 0, buf := fun i => i + 10, buf_size := 4 } 99).2
        = { head := 3, tail := 0, buf := fun i => i + 10, buf_size := 4 } ∧
    (fbp_rbu64_pop { head := 2, tail := 2, buf := fun i => i + 10, buf_size := 4 } 55).2.2
        = 55 :=
  ⟨(failed_push_pop_atomic
      { head := 3, tail := 0, buf := fun i => i + 10, buf_size := 4 } 99 0).2.1 (by decide),
   ((failed_push_pop_atomic
      { head := 2, tail := 2, buf := fun i => i + 10, buf_size := 4 } 0 55).2.2.2
        (by decide)).2⟩

/-- C7, the claim as stated is false: with `buf_size = 2^31 + 1`, `head = 2^31`
and `tail = 0`, all of them `uint32_t` values with both indices below `buf_size`,
the sum `head + buf_size` wraps to 1 and `fbp_rbu64_size` returns 1, while
`(head + buf_size - tail) mod buf_size` is `2^31`. -/
theorem size_wraps_above_2_31 :
    (2147483649 < UINT32_MOD ∧ 1 ≤ 2147483649 ∧ 2147483648 < 2147483649 ∧ 0 < 2147483649) ∧
    fbp_rbu64_size { head := 2147483648, tail := 0, buf := fun _ => 0, buf_size := 2147483649 }
      = 1 ∧
    (2147483648 + 2147483649 - 0) % 2147483649 = 2147483648 ∧
    fbp_rbu64_size { head := 2147483648, tail := 0, buf := fun _ => 0, buf_size := 2147483649 }
      ≠ (2147483648 + 2147483649 - 0) % 2147483649 := by
  decide

/-- C7, amended: for `1 ≤ buf_size ≤ 2^31`, `head < buf_size` and
`tail < buf_size`, `fbp_rbu64_size` returns `(head + buf_size - tail) mod buf_size`,
the number of occupied words. -/
theorem size_eq_mod (s : fbp_rbu64_s) (h : WellFormed s) :
    fbp_rbu64_size s = (s.head + s.buf_size - s.tail) % s.buf_size := by
  have hs := size_of_wf s h
  obtain ⟨h1, h2, h3, h4⟩ := h
  rw [hs]
  split_ifs with hle
  · have : s.head + s.buf_size - s.tail = (s.head - s.tail) + s.buf_size := by omega
    rw [this, Nat.add_mod_right, Nat.mod_eq_of_lt (by omega)]
  · rw [Nat.mod_eq_of_lt (by omega)]

/-- C7, amended, at head 1 and tail 3 in 4 words. -/
theorem size_eq_mod_witness :
    WellFormed { head := 1, tail := 3, buf := fun _ => 0, buf_size := 4 } ∧
    fbp_rbu64_size { head := 1, tail := 3, buf := fun _ => 0, buf_size := 4 }
      = (1 + 4 - 3) % 4 :=
  ⟨by decide, size_eq_mod { head := 1, tail := 3, buf := fun _ => 0, buf_size := 4 } (by decide)⟩

/-- C8: in a well-formed buffer `capacity() == buf_size - 1`, `size() <= capacity()`,
`is_empty()` holds exactly when `size() == 0`, and `empty_size()` is
`capacity() - size()` computed without unsigned underflow: it is the difference
of the two as integers. -/
theorem sacrificed_slot (s : fbp_rbu64_s) (h : WellFormed s) :
    fbp_rbu64_capacity s = s.buf_size - 1 ∧
    fbp_rbu64_size s ≤ fbp_rbu64_capacity s ∧
    (fbp_rbu64_is_empty s = true ↔ fbp_rbu64_size s = 0) ∧
    fbp_rbu64_empty_size s = fbp_rbu64_capacity s - fbp_rbu64_size s ∧
    (fbp_rbu64_empty_size s : Int) = (fbp_rbu64_capacity s : Int) - (fbp_rbu64_size s : Int) := by
  have hs := size_of_wf s h
  have hc := capacity_of_wf s h
  have he := empty_size_of_wf s h
  have hl := size_lt_of_wf s h
  obtain ⟨h1, h2, h3, h4⟩ := h
  refine ⟨hc, by omega, ?_, by omega, by omega⟩
  simp only [fbp_rbu64_is_empty, decide_eq_true_eq]
  split_ifs at hs <;> omega

/-- C8 at a full buffer of 4 words. -/
theorem sacrificed_slot_witness :
    WellFormed { head := 1, tail := 2, buf := fun _ => 0, buf_size := 4 } ∧
    fbp_rbu64_capacity { head := 1, tail := 2, buf := fun _ => 0, buf_size := 4 } = 3 ∧
    fbp_rbu64_empty_size { head := 1, tail := 2, buf := fun _ => 0, buf_size := 4 } = 0 :=
  ⟨by decide,
   (sacrificed_slot { head := 1, tail := 2, buf := fun _ => 0, buf_size := 4 } (by decide)).1,
   by
     have h := (sacrificed_slot { head := 1, tail := 2, buf := fun _ => 0, buf_size := 4 }
       (by decide)).2.2.2.1
     rw [h]; decide⟩

/-! ## Clearing and the index range -/

/-- C9, the claim as stated is false: with `buf_size = 4`, `head = 5` (out of
range) and `tail = 0`, `fbp_rbu64_clear` tests only `tail`, finds it in range and
sets `tail = head`: afterwards both indices are 5, neither below `buf_size`, and
they were not set to zero. -/
theorem clear_keeps_head_out_of_range :
    (fbp_rbu64_clear { head := 5, tail := 0, buf := fun _ => 0, buf_size := 4 }).head = 5 ∧
    (fbp_rbu64_clear { head := 5, tail := 0, buf := fun _ => 0, buf_size := 4 }).tail = 5 ∧
    ¬ ((fbp_rbu64_clear { head := 5, tail := 0, buf := fun _ => 0, buf_size := 4 }).head
        < (fbp_rbu64_clear { head := 5, tail := 0, buf := fun _ => 0, buf_size := 4 }).buf_size) := by
  decide

/-- C9, amended: for every `buf_size ≥ 1` and every `uint32_t` head and tail, in
range or not, after `fbp_rbu64_clear` the buffer satisfies `head == tail`,
`is_empty()` and `size() == 0`, with storage and `buf_size` untouched; when `tail`
was out of range (`tail >= buf_size`) both indices are set to zero; when `tail`
was in range `head` is left unchanged and `tail = head`; both indices are below
`buf_size` afterwards whenever `head` was in range or `tail` was out of range. -/
theorem clear_empties (s : fbp_rbu64_s) (hb : 1 ≤ s.buf_size) (hB : s.buf_size < UINT32_MOD)
    (hh : s.head < UINT32_MOD) (ht : s.tail < UINT32_MOD) :
    (fbp_rbu64_clear s).head = (fbp_rbu64_clear s).tail ∧
    fbp_rbu64_is_empty (fbp_rbu64_clear s) = true ∧
    fbp_rbu64_size (fbp_rbu64_clear s) = 0 ∧
    (fbp_rbu64_clear s).buf = s.buf ∧
    (fbp_rbu64_clear s).buf_size = s.buf_size ∧
    (s.buf_size ≤ s.tail → (fbp_rbu64_clear s).head = 0 ∧ (fbp_rbu64_clear s).tail = 0) ∧
    (s.tail < s.buf_size →
      (fbp_rbu64_clear s).head = s.head ∧ (fbp_rbu64_clear s).tail = s.head) ∧
    (s.head < s.buf_size ∨ s.buf_size ≤ s.tail →
      (fbp_rbu64_clear s).head < s.buf_size ∧ (fbp_rbu64_clear s).tail < s.buf_size) := by
  obtain ⟨hd, tl, bf, bs⟩ := s
  simp only [UINT32_MOD] at hB hh ht
  dsimp only at hb hB hh ht ⊢
  by_cases h1 : bs ≤ tl
  · have hc : fbp_rbu64_clear ⟨hd, tl, bf, bs⟩ = ⟨0, 0, bf, bs⟩ := by
      simp [fbp_rbu64_clear, h1]
    rw [hc]
    refine ⟨rfl, rfl, ?_, rfl, rfl, ?_, ?_, ?_⟩
    · simp only [fbp_rbu64_size, u32_add, u32_sub, UINT32_MOD]
      split_ifs <;> omega
    · intro _; exact ⟨rfl, rfl⟩
    · intro h; omega
    · intro _; exact ⟨hb, hb⟩
  · have hc : fbp_rbu64_clear ⟨hd, tl, bf, bs⟩ = ⟨hd, hd, bf, bs⟩ := by
      simp [fbp_rbu64_clear, h1]
    rw [hc]
    refine ⟨rfl, by simp [fbp_rbu64_is_empty], ?_, rfl, rfl, ?_, ?_, ?_⟩
    · simp only [fbp_rbu64_size, u32_add, u32_sub, UINT32_MOD]
      split_ifs <;> omega
    · intro h; omega
    · intro _; exact ⟨rfl, rfl⟩
    · intro h; dsimp only; omega

/-- C9, amended, at a buffer whose tail is out of range. -/
theorem clear_empties_witness :
    fbp_rbu64_size (fbp_rbu64_clear { head := 1, tail := 9, buf := fun _ => 0, buf_size := 4 })
      = 0 ∧
    (fbp_rbu64_clear { head := 1, tail := 9, buf := fun _ => 0, buf_size := 4 }).head = 0 :=
  ⟨(clear_empties { head := 1, tail := 9, buf := fun _ => 0, buf_size := 4 }
      (by decide) (by decide) (by decide) (by decide)).2.2.1,
   ((clear_empties { head := 1, tail := 9, buf := fun _ => 0, buf_size := 4 }
      (by decide) (by decide) (by decide) (by decide)).2.2.2.2.2.1 (by decide)).1⟩

theorem run_wf (s : fbp_rbu64_s) (c : Cmd) (h : WellFormed s) :
    WellFormed (Cmd.run s c) ∧ (Cmd.run s c).buf_size = s.buf_size := by
  obtain ⟨hd, tl, bf, bs⟩ := s
  simp only [WellFormed] at h
  obtain ⟨h1, h2, h3, h4⟩ := h
  have hs := size_of_wf ⟨hd, tl, bf, bs⟩ ⟨h1, h2, h3, h4⟩
  have he := empty_size_of_wf ⟨hd, tl, bf, bs⟩ ⟨h1, h2, h3, h4⟩
  cases c <;>
    simp only [Cmd.run, fbp_rbu64_push, fbp_rbu64_pop, fbp_rbu64_add, fbp_rbu64_discard,
      fbp_rbu64_clear, fbp_rbu64_offset_incr, WellFormed, u32_add, u32_sub, UINT32_MOD] <;>
    split_ifs at hs ⊢ <;> (try dsimp only at *) <;> omega

theorem foldl_run_wf (cmds : List Cmd) (s : fbp_rbu64_s) (h : WellFormed s) :
    WellFormed (cmds.foldl Cmd.run s) ∧ (cmds.foldl Cmd.run s).buf_size = s.buf_size := by
  induction cmds generalizing s with
  | nil => exact ⟨h, rfl⟩
  | cons c cs ih =>
    have hc := run_wf s c h
    have := ih (Cmd.run s c) hc.1
    exact ⟨this.1, this.2.trans hc.2⟩

/-- C6: `fbp_rbu64_init` with `buffer_size = L ≥ 1` establishes `head < L` and
`tail < L`; each of push, pop, add, discard and clear, with any arguments and
whether it succeeds or fails, takes a buffer with `1 ≤ buf_size ≤ 2^31` and both
indices below `buf_size` to one with the same `buf_size` and both indices below
it; hence in every state reached from init by any sequence of these calls both
indices are below `buf_size = L`. -/
theorem index_range_invariant :
    (∀ (buffer : Words) (L : Nat), 1 ≤ L →
      (fbp_rbu64_init buffer L).head < L ∧ (fbp_rbu64_init buffer L).tail < L ∧
      (fbp_rbu64_init buffer L).buf_size = L) ∧
    (∀ (s : fbp_rbu64_s) (c : Cmd), WellFormed s →
      (Cmd.run s c).head < (Cmd.run s c).buf_size ∧
      (Cmd.run s c).tail < (Cmd.run s c).buf_size ∧
      (Cmd.run s c).buf_size = s.buf_size) ∧
    (∀ (buffer : Words) (L : Nat) (cmds : List Cmd), 1 ≤ L → L ≤ 2147483648 →
      (cmds.foldl Cmd.run (fbp_rbu64_init buffer L)).head < L ∧
      (cmds.foldl Cmd.run (fbp_rbu64_init buffer L)).tail < L ∧
      (cmds.foldl Cmd.run (fbp_rbu64_init buffer L)).buf_size = L) := by
  refine ⟨?_, ?_, ?_⟩
  · intro buffer L hL
    exact ⟨hL, hL, rfl⟩
  · intro s c h
    have := run_wf s c h
    exact ⟨this.1.2.2.1, this.1.2.2.2, this.2⟩
  · intro buffer L cmds h1 h2
    have hw : WellFormed (fbp_rbu64_init buffer L) := by
      simp only [WellFormed, fbp_rbu64_init]; omega
    have := foldl_run_wf cmds _ hw
    have hb : (fbp_rbu64_init buffer L).buf_size = L := rfl
    rw [hb] at this
    obtain ⟨⟨_, _, h3, h4⟩, h5⟩ := this
    rw [h5] at h3 h4
    exact ⟨h3, h4, h5⟩

/-- C6 along a sequence of calls that uses all five operations. -/
theorem index_range_invariant_witness :
    ([Cmd.push 1, Cmd.add (fun i => i) 2, Cmd.discard 7, Cmd.push 5, Cmd.clear, Cmd.pop].foldl
        Cmd.run (fbp_rbu64_init (fun _ => 0) 4)).head < 4 ∧
    ([Cmd.push 1, Cmd.add (fun i => i) 2, Cmd.discard 7, Cmd.push 5, Cmd.clear, Cmd.pop].foldl
        Cmd.run (fbp_rbu64_init (fun _ => 0) 4)).tail < 4 ∧
    ([Cmd.push 1, Cmd.add (fun i => i) 2, Cmd.discard 7, Cmd.push 5, Cmd.clear, Cmd.pop].foldl
        Cmd.run (fbp_rbu64_init (fun _ => 0) 4)).buf_size = 4 :=
  index_range_invariant.2.2 (fun _ => 0) 4
    [Cmd.push 1, Cmd.add (fun i => i) 2, Cmd.discard 7, Cmd.push 5, Cmd.clear, Cmd.pop]
    (by decide) (by decide)

theorem constructed_cons (l : Layer) (h : Nat) (c : Call) (t : List Call) :
    constructed l h (c :: t)
      = constructed l h t + (if c.constructs = some (l, h) then 1 else 0) := by
  simp [constructed, List.countP_cons]

theorem finalized_cons (l : Layer) (h : Nat) (c : Call) (t : List Call) :
    finalized l h (c :: t)
      = finalized l h t + (if c.finalizes = some (l, h) then 1 else 0) := by
  simp [finalized, List.countP_cons]

theorem constructions_cons (l : Layer) (c : Call) (t : List Call) :
    constructions l (c :: t)
      = constructions l t
        + (if c.attempts = some l ∧ c.constructs.isSome = true then 1 else 0) := by
  simp [constructions, List.countP_cons]

theorem constructed_nil (l : Layer) (h : Nat) : constructed l h [] = 0 := rfl

theorem finalized_nil (l : Layer) (h : Nat) : finalized l h [] = 0 := rfl

theorem constructions_nil (l : Layer) : constructions l [] = 0 := rfl

/-! ## Construction of the stack -/

/-- C10: `fbp_stack_initialize` is all-or-nothing.  With the layer constructors and
the port registrations as operations that may fail, it returns a non-NULL instance
exactly when every step succeeds (data-link, transport and port0 constructed,
port 0 registered, role mode CLIENT or SERVER, pubsub bridge constructed, port 1
registered).  In every other outcome it returns NULL and, in the calls it made,
every layer instance that a constructor returned is finalized exactly once and
nothing else is finalized, no layer is constructed twice, the aggregate is freed
exactly once as the last call, only finalizers and the free follow the failed
call, and for a mode that is neither CLIENT nor SERVER the pubsub-bridge
constructor is never called.  A returned instance holds all four layers, each
constructed once, with no failed call, no finalizer and no free. -/
theorem stack_initialize_all_or_nothing (c : Collaborators) (mode : fbp_port0_mode_e)
    (evm_api pubsub : Nat) :
    (( fbp_stack_initialize c mode evm_api pubsub).1 ≠ none ↔ all_steps_succeed c mode) ∧
    (( fbp_stack_initialize c mode evm_api pubsub).1 = none →
      (∀ l h, finalized l h ( fbp_stack_initialize c mode evm_api pubsub).2
          = constructed l h ( fbp_stack_initialize c mode evm_api pubsub).2) ∧
      (∀ l, constructions l ( fbp_stack_initialize c mode evm_api pubsub).2 ≤ 1) ∧
      frees ( fbp_stack_initialize c mode evm_api pubsub).2 = 1 ∧
      ( fbp_stack_initialize c mode evm_api pubsub).2.getLast? = some Call.free ∧
      only_teardown_after_failure ( fbp_stack_initialize c mode evm_api pubsub).2 = true ∧
      (mode ≠ fbp_port0_mode_e.CLIENT → mode ≠ fbp_port0_mode_e.SERVER →
        ∀ x ∈ ( fbp_stack_initialize c mode evm_api pubsub).2,
          x.attempts ≠ some Layer.pubsub_port)) ∧
    (∀ s, ( fbp_stack_initialize c mode evm_api pubsub).1 = some s →
      s.dl ≠ none ∧ s.transport ≠ none ∧ s.port0 ≠ none ∧ s.pubsub_port ≠ none ∧
      (∀ l, constructions l ( fbp_stack_initialize c mode evm_api pubsub).2 = 1) ∧
      (∀ x ∈ ( fbp_stack_initialize c mode evm_api pubsub).2,
        x.is_teardown = false ∧ x.failed = false)) := by
  obtain ⟨dl, tr, p0f, rc1, psf, rc2⟩ := c
  rcases dl with _ | d
  swap
  rcases tr with _ | t
  swap
  rcases hp : p0f mode with _ | p
  swap
  by_cases h1 : rc1 = 0
  rcases mode with _ | _ | n
  rcases hps : psf fbp_pubsubp_mode_e.UPSTREAM with _ | q
  swap
  by_cases h2 : rc2 = 0
  rotate_left 3
  rcases hps : psf fbp_pubsubp_mode_e.DOWNSTREAM with _ | q
  swap
  by_cases h2 : rc2 = 0
  all_goals
    simp [all_steps_succeed, fbp_stack_finalize, fbp_stack_initialize, *]
  all_goals
    simp [constructed_cons, finalized_cons, constructions_cons, constructed_nil, finalized_nil,
      constructions_nil, frees, only_teardown_after_failure, Call.failed, Call.constructs,
      Call.finalizes, Call.attempts, Call.is_teardown, *]
  all_goals
    intro l
    cases l <;> simp

/-- C10 with a role mode that is neither CLIENT nor SERVER: the three layers built so far are finalized and the aggregate is freed. -/
theorem stack_initialize_all_or_nothing_witness :
    ( fbp_stack_initialize
        { dl_initialize := some 1, transport_initialize := some 2,
          port0_initialize := fun _ => some 3, transport_port_register := 0,
          pubsubp_initialize := fun _ => some 4, pubsubp_transport_register := 0 }
        (fbp_port0_mode_e.other 7) 8 9).1 = none ∧
    frees ( fbp_stack_initialize
        { dl_initialize := some 1, transport_initialize := some 2,
          port0_initialize := fun _ => some 3, transport_port_register := 0,
          pubsubp_initialize := fun _ => some 4, pubsubp_transport_register := 0 }
        (fbp_port0_mode_e.other 7) 8 9).2 = 1 ∧
    ( fbp_stack_initialize
        { dl_initialize := some 1, transport_initialize := some 2,
          port0_initialize := fun _ => some 3, transport_port_register := 0,
          pubsubp_initialize := fun _ => some 4, pubsubp_transport_register := 0 }
        (fbp_port0_mode_e.other 7) 8 9).2
      = [Call.alloc_clr, Call.dl_initialize (some 1), Call.transport_initialize 1 (some 2),
         Call.dl_register_upper_layer 1 2,
         Call.port0_initialize (fbp_port0_mode_e.other 7) 1 2 (some 3),
         Call.transport_port_register 2 0 3 0, Call.dl_finalize 1, Call.transport_finalize 2,
         Call.port0_finalize 3, Call.free] :=
  ⟨by decide,
   ((stack_initialize_all_or_nothing
      { dl_initialize := some 1, transport_initialize := some 2,
        port0_initialize := fun _ => some 3, transport_port_register := 0,
        pubsubp_initialize := fun _ => some 4, pubsubp_transport_register := 0 }
      (fbp_port0_mode_e.other 7) 8 9).2.1 (by decide)).2.2.1,
   by decide⟩

/-! ## Scheduling, processing and teardown of the stack -/

/-- C11: for every stack instance `fbp_stack_interval_next` returns `min(e, d)`,
where `e` is `fbp_evm_interval_next` at the timestamp obtained from
`evm_api.timestamp` and `d` is `fbp_dl_service_interval` of the data-link layer;
the result is never larger than `e` or `d`, and it is `INT64_MAX` when both
report `INT64_MAX`. -/
theorem interval_next_is_min {σ : Type} (sv : Services σ) (self : fbp_stack_s) (w : σ) :
    fbp_stack_interval_next sv self w
      = min (sv.evm_interval_next self.evm_api (sv.timestamp self.evm_api w) w)
            (sv.dl_service_interval self.dl w) ∧
    fbp_stack_interval_next sv self w
      ≤ sv.evm_interval_next self.evm_api (sv.timestamp self.evm_api w) w ∧
    fbp_stack_interval_next sv self w ≤ sv.dl_service_interval self.dl w ∧
    (sv.evm_interval_next self.evm_api (sv.timestamp self.evm_api w) w = INT64_MAX →
      sv.dl_service_interval self.dl w = INT64_MAX →
      fbp_stack_interval_next sv self w = INT64_MAX) := by
  simp only [fbp_stack_interval_next]
  refine ⟨?_, ?_, ?_, ?_⟩
  · split_ifs with h
    · rw [min_eq_right (le_of_lt h)]
    · rw [min_eq_left (not_lt.mp h)]
  · split_ifs with h <;> omega
  · split_ifs with h <;> omega
  · intro he hd
    rw [he, hd]
    simp

/-- C11 on the clock of `clock_services` at time 10: the event manager is due in
7, the data link in 3, the stack in 3; and with both at `INT64_MAX` the stack
reports `INT64_MAX`. -/
theorem interval_next_is_min_witness :
    fbp_stack_interval_next clock_services
      { dl := some 1, evm_api := 0, transport := some 2, port0 := some 3, pubsub := 0,
        pubsub_port := some 4 } 10 = 3 ∧
    fbp_stack_interval_next
      { clock_services with
        evm_interval_next := fun _ _ _ => INT64_MAX,
        dl_service_interval := fun _ _ => INT64_MAX }
      { dl := some 1, evm_api := 0, transport := some 2, port0 := some 3, pubsub := 0,
        pubsub_port := some 4 } 10 = INT64_MAX :=
  ⟨by decide,
   (interval_next_is_min
      { clock_services with
        evm_interval_next := fun _ _ _ => INT64_MAX,
        dl_service_interval := fun _ _ => INT64_MAX }
      { dl := some 1, evm_api := 0, transport := some 2, port0 := some 3, pubsub := 0,
        pubsub_port := some 4 } 10).2.2.2 rfl rfl⟩

/-- C12: in every call of `fbp_stack_process` the collaborator calls are exactly
`fbp_dl_process` on the data-link layer, then `evm_api.timestamp`, then
`fbp_evm_process` with the timestamp just read.  The timestamp is the one of the
state that `fbp_dl_process` left, the event manager is advanced from that state,
and in the sequence of calls no `fbp_evm_process` stands before the
`fbp_dl_process` or before the `timestamp`. -/
theorem process_order {σ : Type} (sv : Services σ) (self : fbp_stack_s) (w : σ) :
    (fbp_stack_process sv self w).2
      = [RunCall.dl_process self.dl,
         RunCall.timestamp self.evm_api (sv.timestamp self.evm_api (sv.dl_process self.dl w)),
         RunCall.evm_process self.evm_api
           (sv.timestamp self.evm_api (sv.dl_process self.dl w))] ∧
    (fbp_stack_process sv self w).1
      = sv.evm_process self.evm_api (sv.timestamp self.evm_api (sv.dl_process self.dl w))
          (sv.dl_process self.dl w) ∧
    (∀ (pre post : List RunCall) (evm : Nat) (now : Int),
      (fbp_stack_process sv self w).2 = pre ++ RunCall.evm_process evm now :: post →
      RunCall.dl_process self.dl ∈ pre ∧ RunCall.timestamp evm now ∈ pre ∧ post = []) := by
  refine ⟨rfl, rfl, ?_⟩
  intro pre post evm now h
  simp only [fbp_stack_process] at h
  rcases pre with _ | ⟨a, _ | ⟨b, _ | ⟨c, pre⟩⟩⟩
  · simp at h
  · simp at h
  · simp at h
    obtain ⟨h1, h2, ⟨e1, e2⟩, h4⟩ := h
    subst h1 h2 e1 e2
    simp [h4]
  · have hl := congrArg List.length h
    simp at hl

/-- C12 on the clock of `clock_services` at time 10: the data link advances the
clock to 15, and 15, not 10, is the time handed to the event manager. -/
theorem process_order_witness :
    fbp_stack_process clock_services
      { dl := some 1, evm_api := 0, transport := some 2, port0 := some 3, pubsub := 0,
        pubsub_port := some 4 } 10
      = (15, [RunCall.dl_process (some 1), RunCall.timestamp 0 15, RunCall.evm_process 0 15]) ∧
    RunCall.dl_process (some 1) ∈ [RunCall.dl_process (some 1), RunCall.timestamp 0 15] :=
  ⟨by decide,
   ((process_order clock_services
      { dl := some 1, evm_api := 0, transport := some 2, port0 := some 3, pubsub := 0,
        pubsub_port := some 4 } 10).2.2
      [RunCall.dl_process (some 1), RunCall.timestamp 0 15] [] 0 15 (by decide)).1⟩

/-- C13, the claim as stated is false: after `fbp_stack_finalize` on a fully built
stack the block has been handed to `fbp_free`, and a second call on the same
instance reads it back.  If it reads back as the first call left it, with the
layer references NULL, the second call still calls `fbp_free`, so the aggregate
is released twice; if it reads back with a stale reference, here the data link
`1`, that layer is finalized again as well. -/
theorem second_finalize_frees_again :
    (fbp_stack_finalize
      (some { dl := none, evm_api := 0, transport := none, port0 := none, pubsub := 0,
              pubsub_port := none })).calls = [Call.free] ∧
    frees
      ((fbp_stack_finalize
        (some { dl := some 1, evm_api := 0, transport := some 2, port0 := some 3, pubsub := 0,
                pubsub_port := some 4 })).calls ++
       (fbp_stack_finalize
        (some { dl := none, evm_api := 0, transport := none, port0 := none, pubsub := 0,
                pubsub_port := none })).calls) = 2 ∧
    (fbp_stack_finalize
      (some { dl := some 1, evm_api := 0, transport := none, port0 := none, pubsub := 0,
              pubsub_port := none })).calls = [Call.dl_finalize 1, Call.free] := by
  decide

/-- C13, amended: a second `fbp_stack_finalize` on the same non-NULL instance is
not a no-op.  Whatever the released block `readback` reads back as, the second
call returns 0 and calls `fbp_free(self)` again, exactly once and as its last
call, so that the two calls together release the aggregate twice; it finalizes
again exactly the layers whose reference reads back non-NULL, each once, and so
none only if all four read back NULL, as they do when the block still reads as
the first call left it.  Only for a NULL instance is a repeated call a no-op. -/
theorem second_finalize (s readback : fbp_stack_s) :
    (fbp_stack_finalize (some readback)).ret = 0 ∧
    frees (fbp_stack_finalize (some readback)).calls = 1 ∧
    (fbp_stack_finalize (some readback)).calls.getLast? = some Call.free ∧
    frees ((fbp_stack_finalize (some s)).calls ++ (fbp_stack_finalize (some readback)).calls)
      = 2 ∧
    (∀ l h, finalized l h (fbp_stack_finalize (some readback)).calls
      = if readback.layer l = some h then 1 else 0) ∧
    ((fbp_stack_finalize (some s)).self_at_free = some readback →
      (fbp_stack_finalize (some readback)).calls = [Call.free]) ∧
    (fbp_stack_finalize none).calls = [] ∧
    (fbp_stack_finalize none).ret = 0 := by
  obtain ⟨dl, evm, tr, p0, ps, pp⟩ := readback
  obtain ⟨dl1, evm1, tr1, p01, ps1, pp1⟩ := s
  refine ⟨rfl, ?_, ?_, ?_, ?_, ?_, rfl, rfl⟩
  · cases dl <;> cases tr <;> cases p0 <;> cases pp <;>
      simp [fbp_stack_finalize, frees]
  · cases dl <;> cases tr <;> cases p0 <;> cases pp <;>
      simp [fbp_stack_finalize]
  · have h1 : frees (fbp_stack_finalize (some ⟨dl1, evm1, tr1, p01, ps1, pp1⟩)).calls = 1 := by
      cases dl1 <;> cases tr1 <;> cases p01 <;> cases pp1 <;>
        simp [fbp_stack_finalize, frees]
    have h2 : frees (fbp_stack_finalize (some ⟨dl, evm, tr, p0, ps, pp⟩)).calls = 1 := by
      cases dl <;> cases tr <;> cases p0 <;> cases pp <;>
        simp [fbp_stack_finalize, frees]
    simp only [frees, List.count_append] at h1 h2 ⊢
    omega
  · intro l h
    cases dl <;> cases tr <;> cases p0 <;> cases pp <;> cases l <;>
      simp [fbp_stack_finalize, finalized_cons, finalized_nil, Call.finalizes,
        fbp_stack_s.layer, eq_comm]
  · intro hleft
    simp only [fbp_stack_finalize, Option.some.injEq, fbp_stack_s.mk.injEq] at hleft
    obtain ⟨hdl, _, htr, hp0, _, hpp⟩ := hleft
    subst hdl htr hp0 hpp
    simp [fbp_stack_finalize]

/-- C13, amended, on a fully built stack whose block reads back as the first call
left it: the second call makes the one call `fbp_free`. -/
theorem second_finalize_witness :
    (fbp_stack_finalize
      (some { dl := some 1, evm_api := 0, transport := some 2, port0 := some 3, pubsub := 0,
              pubsub_port := some 4 })).self_at_free
      = some { dl := none, evm_api := 0, transport := none, port0 := none, pubsub := 0,
               pubsub_port := none } ∧
    (fbp_stack_finalize
      (some { dl := none, evm_api := 0, transport := none, port0 := none, pubsub := 0,
              pubsub_port := none })).calls = [Call.free] :=
  ⟨by decide,
   (second_finalize
      { dl := some 1, evm_api := 0, transport := some 2, port0 := some 3, pubsub := 0,
        pubsub_port := some 4 }
      { dl := none, evm_api := 0, transport := none, port0 := none, pubsub := 0,
        pubsub_port := none }).2.2.2.2.2.1 (by decide)⟩

/-- C18: `fbp_stack_finalize` with a NULL instance makes no collaborator call and
returns 0.  With a non-NULL instance holding any subset of the four layer
references it returns 0, calls the finalizer of each layer that is present
exactly once, on the instance held, and no finalizer for an absent layer, frees
the aggregate exactly once, as its last call, and makes no other call: the pubsub
store and the event manager are never finalized. -/
theorem finalize_partial (s : fbp_stack_s) :
    (fbp_stack_finalize none).ret = 0 ∧
    (fbp_stack_finalize none).calls = [] ∧
    (fbp_stack_finalize (some s)).ret = 0 ∧
    (∀ l h, finalized l h (fbp_stack_finalize (some s)).calls
      = if s.layer l = some h then 1 else 0) ∧
    frees (fbp_stack_finalize (some s)).calls = 1 ∧
    (fbp_stack_finalize (some s)).calls.getLast? = some Call.free ∧
    (∀ x ∈ (fbp_stack_finalize (some s)).calls,
      x = Call.free ∨ ∃ l h, s.layer l = some h ∧ x.finalizes = some (l, h)) := by
  obtain ⟨dl, evm, tr, p0, ps, pp⟩ := s
  refine ⟨rfl, rfl, rfl, ?_, ?_, ?_, ?_⟩
  · intro l h
    cases dl <;> cases tr <;> cases p0 <;> cases pp <;> cases l <;>
      simp [fbp_stack_finalize, finalized_cons, finalized_nil, Call.finalizes,
        fbp_stack_s.layer, eq_comm]
  · cases dl <;> cases tr <;> cases p0 <;> cases pp <;>
      simp [fbp_stack_finalize, frees]
  · cases dl <;> cases tr <;> cases p0 <;> cases pp <;>
      simp [fbp_stack_finalize]
  · cases dl <;> cases tr <;> cases p0 <;> cases pp <;>
      simp [fbp_stack_finalize, Call.finalizes, fbp_stack_s.layer]

/-- C14: on every successful `fbp_stack_initialize` the calls are, in this order,
the allocation, the data-link constructor, the transport constructor, the
registration of the upper layer on the data link, the port0 constructor, the
registration on transport port 0, the pubsub-bridge constructor and the
registration on transport port 1, and the bridge is constructed with direction
UPSTREAM when the role mode is CLIENT and DOWNSTREAM when it is SERVER.  In every
outcome, successful or not, no pubsub bridge is constructed for a direction that
does not belong to the mode, so none at all for a mode that is neither CLIENT
nor SERVER. -/
theorem construction_order (c : Collaborators) (mode : fbp_port0_mode_e)
    (evm_api pubsub : Nat) :
    (∀ s, ( fbp_stack_initialize c mode evm_api pubsub).1 = some s →
      ∃ d t p q pm,
        s.dl = some d ∧ s.transport = some t ∧ s.port0 = some p ∧ s.pubsub_port = some q ∧
        ((mode = fbp_port0_mode_e.CLIENT ∧ pm = fbp_pubsubp_mode_e.UPSTREAM) ∨
         (mode = fbp_port0_mode_e.SERVER ∧ pm = fbp_pubsubp_mode_e.DOWNSTREAM)) ∧
        ( fbp_stack_initialize c mode evm_api pubsub).2
          = [Call.alloc_clr, Call.dl_initialize (some d), Call.transport_initialize d (some t),
             Call.dl_register_upper_layer d t, Call.port0_initialize mode d t (some p),
             Call.transport_port_register t 0 p 0, Call.pubsubp_initialize pm (some q),
             Call.pubsubp_transport_register q 1 t 0]) ∧
    (∀ x ∈ ( fbp_stack_initialize c mode evm_api pubsub).2, x.wrong_direction mode = false) ∧
    (mode ≠ fbp_port0_mode_e.CLIENT → mode ≠ fbp_port0_mode_e.SERVER →
      ∀ x ∈ ( fbp_stack_initialize c mode evm_api pubsub).2,
        x.attempts ≠ some Layer.pubsub_port) := by
  obtain ⟨dl, tr, p0f, rc1, psf, rc2⟩ := c
  rcases dl with _ | d
  swap
  rcases tr with _ | t
  swap
  rcases hp : p0f mode with _ | p
  swap
  by_cases h1 : rc1 = 0
  rcases mode with _ | _ | n
  rcases hps : psf fbp_pubsubp_mode_e.UPSTREAM with _ | q
  swap
  by_cases h2 : rc2 = 0
  rotate_left 3
  rcases hps : psf fbp_pubsubp_mode_e.DOWNSTREAM with _ | q
  swap
  by_cases h2 : rc2 = 0
  all_goals
    simp [fbp_stack_finalize, fbp_stack_initialize, Call.wrong_direction, Call.attempts, *]

/-- C14 with role mode SERVER and every collaborator succeeding. -/
theorem construction_order_witness :
    ( fbp_stack_initialize
        { dl_initialize := some 1, transport_initialize := some 2,
          port0_initialize := fun _ => some 3, transport_port_register := 0,
          pubsubp_initialize := fun _ => some 4, pubsubp_transport_register := 0 }
        fbp_port0_mode_e.SERVER 8 9).2
      = [Call.alloc_clr, Call.dl_initialize (some 1), Call.transport_initialize 1 (some 2),
         Call.dl_register_upper_layer 1 2,
         Call.port0_initialize fbp_port0_mode_e.SERVER 1 2 (some 3),
         Call.transport_port_register 2 0 3 0,
         Call.pubsubp_initialize fbp_pubsubp_mode_e.DOWNSTREAM (some 4),
         Call.pubsubp_transport_register 4 1 2 0] ∧
    Call.wrong_direction fbp_port0_mode_e.SERVER
      (Call.pubsubp_initialize fbp_pubsubp_mode_e.DOWNSTREAM (some 4)) = false :=
  ⟨by decide,
   (construction_order
      { dl_initialize := some 1, transport_initialize := some 2,
        port0_initialize := fun _ => some 3, transport_port_register := 0,
        pubsubp_initialize := fun _ => some 4, pubsubp_transport_register := 0 }
      fbp_port0_mode_e.SERVER 8 9).2.1 _ (by decide)⟩

/-- C19: in every state a `fbp_rbu64_push` that returns true changes only head,
which becomes `next(head)`, and the storage word at the old head index, which
becomes the value pushed: tail, `buf_size` and every other storage word are
unchanged.  A `fbp_rbu64_pop` that returns true changes only tail, which becomes
`next(tail)`: head, `buf_size` and the whole storage are unchanged, and the value
delivered is the word stored at the old tail index. -/
theorem push_pop_frame (s : fbp_rbu64_s) (v out : Nat) :
    ((fbp_rbu64_push s v).1 = true →
      (fbp_rbu64_push s v).2.tail = s.tail ∧
      (fbp_rbu64_push s v).2.buf_size = s.buf_size ∧
      (fbp_rbu64_push s v).2.head = fbp_rbu64_offset_incr s s.head ∧
      (fbp_rbu64_push s v).2.buf s.head = v ∧
      (∀ j, j ≠ s.head → (fbp_rbu64_push s v).2.buf j = s.buf j)) ∧
    ((fbp_rbu64_pop s out).1 = true →
      (fbp_rbu64_pop s out).2.1.head = s.head ∧
      (fbp_rbu64_pop s out).2.1.buf_size = s.buf_size ∧
      (fbp_rbu64_pop s out).2.1.buf = s.buf ∧
      (fbp_rbu64_pop s out).2.1.tail = fbp_rbu64_offset_incr s s.tail ∧
      (fbp_rbu64_pop s out).2.2 = s.buf s.tail) := by
  constructor
  · simp only [fbp_rbu64_push]
    split_ifs with hf
    · intro h
      simp at h
    · intro _
      refine ⟨rfl, rfl, rfl, ?_, ?_⟩
      · simp [store]
      · intro j hj
        simp [store, hj]
  · simp only [fbp_rbu64_pop]
    split_ifs with hf
    · intro h
      simp at h
    · intro _
      exact ⟨rfl, rfl, rfl, rfl, rfl⟩

/-- C19 at a buffer holding the words 12 and 13 in 4 words of storage. -/
theorem push_pop_frame_witness :
    (fbp_rbu64_push { head := 0, tail := 2, buf := fun i => i + 10, buf_size := 4 } 99).2.buf 0
      = 99 ∧
    (fbp_rbu64_pop { head := 0, tail := 2, buf := fun i => i + 10, buf_size := 4 } 0).2.2
      = 12 :=
  ⟨((push_pop_frame { head := 0, tail := 2, buf := fun i => i + 10, buf_size := 4 } 99 0).1
      (by decide)).2.2.2.1,
   ((push_pop_frame { head := 0, tail := 2, buf := fun i => i + 10, buf_size := 4 } 99 0).2
      (by decide)).2.2.2.2⟩

/-! ## Bulk add against repeated push -/

theorem push_each_spec (s : fbp_rbu64_s) (items : Words) (n : Nat) (h : WellFormed s)
    (hn : n ≤ fbp_rbu64_empty_size s) :
    push_each s items n =
      (true,
        { s with
          head := wrap_index s.buf_size s.head n,
          buf := fun j =>
            if j < s.buf_size ∧ offset_from s.buf_size s.head j < n then
              items (offset_from s.buf_size s.head j)
            else s.buf j }) := by
  have hs := size_of_wf s h
  have he := empty_size_of_wf s h
  obtain ⟨hd, tl, bf, bs⟩ := s
  obtain ⟨h1, h2, h3, h4⟩ := h
  dsimp only at h1 h2 h3 h4 hs he ⊢
  induction n with
  | zero =>
    simp [push_each, wrap_index_zero _ _ h3]
  | succ n ih =>
    rw [push_each, ih (by omega)]
    dsimp only
    have hlt : wrap_index bs hd n < bs := by
      simp only [wrap_index]
      split_ifs <;> omega
    have hi := offset_incr_of_lt
      ⟨wrap_index bs hd n, tl,
        fun j => if j < bs ∧ offset_from bs hd j < n then items (offset_from bs hd j) else bf j,
        bs⟩ (wrap_index bs hd n) h2 hlt
    dsimp only at hi
    have hnext : (if wrap_index bs hd n + 1 = bs then 0 else wrap_index bs hd n + 1)
        = wrap_index bs hd (n + 1) := by
      simp only [wrap_index]
      split_ifs <;> omega
    have hfull : ¬ wrap_index bs hd (n + 1) = tl := by
      simp only [wrap_index]
      split_ifs at hs ⊢ <;> omega
    simp only [fbp_rbu64_push, hi, hnext, hfull, if_false, Bool.and_self]
    congr 2
    funext j
    simp only [store, wrap_index, offset_from]
    split_ifs <;>
      first
        | rfl
        | (exfalso; omega)
        | (congr 1; omega)

theorem add_eq_push_each (s : fbp_rbu64_s) (items : Words) (count : Nat) (h : WellFormed s)
    (hc : count ≤ fbp_rbu64_empty_size s) :
    fbp_rbu64_add s items count = push_each s items count := by
  have hs := size_of_wf s h
  have he := empty_size_of_wf s h
  rw [add_eq s items count h hc, push_each_spec s items count h hc]
  obtain ⟨hd, tl, bf, bs⟩ := s
  obtain ⟨h1, h2, h3, h4⟩ := h
  dsimp only at h1 h2 h3 h4 hs he ⊢
  congr 1
  split_ifs with ha hb hb
  · subst hb
    simp [wrap_index_zero _ _ h3]
  · congr 1
    · simp only [wrap_index]
      split_ifs
      omega
    · funext j
      simp only [fbp_memcpy, offset_from]
      split_ifs <;>
        first
          | rfl
          | (exfalso; omega)
          | (congr 1; omega)
  · congr 1
    · simp only [wrap_index]
      split_ifs
      omega
    · funext j
      simp only [fbp_memcpy, offset_from]
      split_ifs <;>
        first
          | rfl
          | (exfalso; omega)
          | (congr 1; omega)
  · congr 1
    · simp only [wrap_index]
      split_ifs
      omega
    · funext j
      simp only [fbp_memcpy, offset_from]
      split_ifs <;>
        first
          | rfl
          | (exfalso; omega)
          | (congr 1; omega)

/-- C17: in a well-formed buffer, for every item sequence of length
`count <= fbp_rbu64_empty_size()`, `fbp_rbu64_add(items, count)` returns true and
leaves the same structure (head, tail and every storage word) as the calls
`fbp_rbu64_push(items[0])`, ..., `fbp_rbu64_push(items[count-1])` in order, all of
which return true; this covers the write that crosses the end of storage and the
one that ends exactly at it, after which head is 0. -/
theorem add_refines_push (s : fbp_rbu64_s) (items : Words) (count : Nat) (h : WellFormed s)
    (hc : count ≤ fbp_rbu64_empty_size s) :
    (fbp_rbu64_add s items count).1 = true ∧
    (push_each s items count).1 = true ∧
    (fbp_rbu64_add s items count).2 = (push_each s items count).2 ∧
    (s.head + count = s.buf_size → (fbp_rbu64_add s items count).2.head = 0) := by
  have he := add_eq_push_each s items count h hc
  have hp := push_each_spec s items count h hc
  refine ⟨?_, ?_, ?_, ?_⟩
  · rw [he, hp]
  · rw [hp]
  · rw [he]
  · intro hx
    rw [he, hp]
    simp only [wrap_index]
    split_ifs <;> omega

/-- C17 at a buffer with head 3 and tail 2 in 4 words: adding two words crosses the
end of storage, and adding one word ends exactly at it. -/
theorem add_refines_push_witness :
    (fbp_rbu64_add { head := 3, tail := 2, buf := fun i => i + 10, buf_size := 4 }
        (fun i => i + 70) 2).2
      = (push_each { head := 3, tail := 2, buf := fun i => i + 10, buf_size := 4 }
          (fun i => i + 70) 2).2 ∧
    (fbp_rbu64_add { head := 3, tail := 2, buf := fun i => i + 10, buf_size := 4 }
        (fun i => i + 70) 1).2.head = 0 :=
  ⟨(add_refines_push { head := 3, tail := 2, buf := fun i => i + 10, buf_size := 4 }
      (fun i => i + 70) 2 (by decide) (by decide)).2.2.1,
   (add_refines_push { head := 3, tail := 2, buf := fun i => i + 10, buf_size := 4 }
      (fun i => i + 70) 1 (by decide) (by decide)).2.2.2 (by decide)⟩

/-! ## Time synchronization -/

theorem counter_sub_self (c : Nat) : counter_sub c c = 0 := by
  simp only [counter_sub, COUNTER_MOD]
  omega

theorem resolve_set (w : TsWorld) (self : Nat) (ts : fbp_ts_s) (d : Option Nat)
    (hself : self < w.instances.length) :
    TsWorld.resolve { instances := w.instances.set self ts, default_instance := d } (some self)
      = some ts := by
  simp [TsWorld.resolve, List.getElem?_set_self, hself]

theorem resolve_default (w : TsWorld) (self : Nat) (hd : w.default_instance = some self) :
    w.resolve none = w.resolve (some self) := by
  simp [TsWorld.resolve, hd]

theorem time_default (SECOND : Int) (w : TsWorld) (counter : fbp_time_counter_s) (self : Nat)
    (hd : w.default_instance = some self) :
    fbp_ts_time SECOND w counter none = fbp_ts_time SECOND w counter (some self) := by
  simp only [fbp_ts_time, resolve_default w self hd]

theorem update_symmetric (w : TsWorld) (counter : fbp_time_counter_s) (self c d : Nat)
    (t hw : Int) (hself : self < w.instances.length) (hc : c < COUNTER_MOD)
    (hd : 2 * d < COUNTER_MOD / 2) (hw0 : 0 ≤ hw) :
    fbp_ts_update w counter self (counter_sub c d) (t - hw) (t + hw) ((c + d) % COUNTER_MOD)
      = { instances := w.instances.set self
            { anchor_counter := c, anchor_time := t, frequency := counter.frequency },
          default_instance := w.default_instance } := by
  simp only [COUNTER_MOD] at hc hd
  have h1 : ¬ (t - hw > t + hw ∨
      counter_sub ((c + d) % COUNTER_MOD) (counter_sub c d) ≥ COUNTER_MOD / 2) := by
    simp only [counter_sub, COUNTER_MOD]
    omega
  have h2 : ((counter_sub c d) % COUNTER_MOD
      + counter_sub ((c + d) % COUNTER_MOD) (counter_sub c d) / 2) % COUNTER_MOD = c := by
    simp only [counter_sub, COUNTER_MOD]
    omega
  have h3 : t - hw + (t + hw - (t - hw)) / 2 = t := by omega
  simp only [fbp_ts_update, hself, if_true, h1, if_false, h2, h3]

theorem time_at_anchor (SECOND : Int) (w : TsWorld) (self c f fq : Nat) (t : Int)
    (d : Option Nat) (hself : self < w.instances.length) :
    fbp_ts_time SECOND
        { instances := w.instances.set self
            { anchor_counter := c, anchor_time := t, frequency := f },
          default_instance := d }
        { value := c, frequency := fq } (some self) = some t := by
  simp only [fbp_ts_time, resolve_set w self _ d hself, counter_sub_self]
  simp

theorem zero_noise_loop_true (SECOND MILLISECOND : Int) (self : Nat) (hm : 0 ≤ MILLISECOND)
    (n : Nat) (w : TsWorld) (counter : fbp_time_counter_s) (time : Int)
    (hself : self < w.instances.length) (hdef : w.default_instance = some self)
    (hc : counter.value < COUNTER_MOD) :
    zero_noise_loop SECOND MILLISECOND self n w counter time = true := by
  induction n generalizing w counter time with
  | zero => rfl
  | succ n ih =>
    obtain ⟨c, f⟩ := counter
    dsimp only at hc
    have hu := update_symmetric w ⟨c, f⟩ self c 10 time MILLISECOND hself hc (by decide) hm
    dsimp only at hu
    simp only [zero_noise_loop, hu, Bool.and_eq_true, decide_eq_true_eq]
    constructor
    · refine (time_default SECOND _ _ self ?_).trans ?_
      · exact hdef
      · exact time_at_anchor SECOND w self c f f time w.default_instance hself
    · apply ih
      · simpa using hself
      · exact hdef
      · exact Nat.mod_lt _ (by decide)

/-- C15, spec-modelled engine: for every engine state, every counter reading `c`,
every half round-trip `d` below a quarter of the counter range, every reference
time `t` and every half window `hw ≥ 0`, after
`fbp_ts_update(self, c - d, t - hw, t + hw, c + d)` a query `fbp_ts_time` made
while the counter reads `c` returns exactly `t`, for the explicit instance and,
when it is the registered default, for NULL.  Consequently the loop of
`test_multiple_zero_noise` (frequency 1000, `c` from 60000 in steps of
`10 * frequency`, `d = 10`, `t` from one hour in steps of 10 s) finds the queried
time equal to `t` after every update, for any number of iterations and so for
32. -/
theorem zero_drift (SECOND : Int) (w : TsWorld) (upd now : fbp_time_counter_s)
    (self c d : Nat) (t hw : Int) (hself : self < w.instances.length)
    (hc : c < COUNTER_MOD) (hnow : now.value = c) (hd : 2 * d < COUNTER_MOD / 2)
    (hw0 : 0 ≤ hw) (_hf : 0 < upd.frequency) :
    fbp_ts_time SECOND
        (fbp_ts_update w upd self (counter_sub c d) (t - hw) (t + hw) ((c + d) % COUNTER_MOD))
        now (some self) = some t ∧
    (w.default_instance = some self →
      fbp_ts_time SECOND
        (fbp_ts_update w upd self (counter_sub c d) (t - hw) (t + hw) ((c + d) % COUNTER_MOD))
        now none = some t) ∧
    (∀ (MILLISECOND : Int) (n : Nat), 0 ≤ MILLISECOND →
      test_multiple_zero_noise SECOND MILLISECOND n = true) := by
  obtain ⟨cv, fq⟩ := now
  dsimp only at hnow
  subst hnow
  have hu := update_symmetric w upd self cv d t hw hself hc hd hw0
  have hq := time_at_anchor SECOND w self cv upd.frequency fq t w.default_instance hself
  refine ⟨?_, ?_, ?_⟩
  · rw [hu]
    exact hq
  · intro hdef
    rw [hu]
    refine (time_default SECOND _ _ self ?_).trans ?_
    · exact hdef
    · exact hq
  · intro MILLISECOND n hm
    simp only [test_multiple_zero_noise]
    apply zero_noise_loop_true SECOND MILLISECOND _ hm
    · simp [ fbp_ts_initialize]
    · simp [ fbp_ts_initialize]
    · decide

/-- C15 on a fresh engine at frequency 1000 with one second equal to `2^30` time
units: `update(59990, H - 1ms, H + 1ms, 60010)` and a query at 60000 give `H`. -/
theorem zero_drift_witness :
    fbp_ts_time 1073741824
        (fbp_ts_update
          ( fbp_ts_initialize { instances := [], default_instance := none }
              { value := 0, frequency := 1000 }).2
          { value := 60000, frequency := 1000 } 0 (counter_sub 60000 10)
          (3600 * 1073741824 - 1073742) (3600 * 1073741824 + 1073742)
          ((60000 + 10) % COUNTER_MOD))
        { value := 60000, frequency := 1000 } (some 0) = some (3600 * 1073741824) ∧
    test_multiple_zero_noise 1073741824 1073742 32 = true :=
  ⟨(zero_drift 1073741824
      ( fbp_ts_initialize { instances := [], default_instance := none }
          { value := 0, frequency := 1000 }).2
      { value := 60000, frequency := 1000 } { value := 60000, frequency := 1000 }
      0 60000 10 (3600 * 1073741824) 1073742
      (by decide) (by decide) rfl (by decide) (by decide) (by decide)).1,
   (zero_drift 1073741824
      ( fbp_ts_initialize { instances := [], default_instance := none }
          { value := 0, frequency := 1000 }).2
      { value := 60000, frequency := 1000 } { value := 60000, frequency := 1000 }
      0 60000 10 (3600 * 1073741824) 1073742
      (by decide) (by decide) rfl (by decide) (by decide) (by decide)).2.2 1073742 32
      (by decide)⟩

theorem resolve_fresh (w : TsWorld) (counter : fbp_time_counter_s) :
    ( fbp_ts_initialize w counter).2.resolve (some ( fbp_ts_initialize w counter).1)
      = some { anchor_counter := 0, anchor_time := 0, frequency := counter.frequency } ∧
    ( fbp_ts_initialize w counter).2.default_instance = some ( fbp_ts_initialize w counter).1 ∧
    ( fbp_ts_initialize w counter).1 < ( fbp_ts_initialize w counter).2.instances.length := by
  simp [ fbp_ts_initialize, TsWorld.resolve]

/-- C16, spec-modelled engine: for an engine with anchor
`(anchor_counter, anchor_time)` and frequency `f > 0`, `fbp_ts_time` at the
counter reading `c` returns `anchor_time + (c - anchor_counter) * SECOND / f`
with the counter difference taken modulo the counter width and the quotient
rounded down, so less than one time unit below the exact affine value; it returns
the same for the explicit instance and, when that instance is the registered
default, for NULL.  A freshly initialized engine at frequency 1000 has the anchor
`(0, 0)`: the reading 0 gives exactly 0 and the reading 60000 exactly one minute
(`60 * SECOND`); after `fbp_ts_update(60000, H, H, 60000)` with `H` one hour
(`3600 * SECOND`) the reading 60000 gives exactly `H` and the reading 61000
exactly `H + SECOND`, all of them for the instance and for NULL, hence each
within one microsecond. -/
theorem ts_time_affine (SECOND : Int) (w : TsWorld) (counter : fbp_time_counter_s)
    (self : Nat) (ts : fbp_ts_s) (hself : w.instances.get? self = some ts)
    (hf : 0 < ts.frequency) :
    fbp_ts_time SECOND w counter (some self)
      = some (ts.anchor_time
          + (counter_sub counter.value ts.anchor_counter : Int) * SECOND / (ts.frequency : Int)) ∧
    (w.default_instance = some self →
      fbp_ts_time SECOND w counter none = fbp_ts_time SECOND w counter (some self)) ∧
    (∀ r, fbp_ts_time SECOND w counter (some self) = some r →
      (ts.frequency : Int) * (r - ts.anchor_time)
        ≤ (counter_sub counter.value ts.anchor_counter : Int) * SECOND ∧
      (counter_sub counter.value ts.anchor_counter : Int) * SECOND
        < (ts.frequency : Int) * (r - ts.anchor_time) + (ts.frequency : Int)) ∧
    (∀ (w0 : TsWorld) (v0 : Nat) (arg : Option Nat),
      arg = none ∨ arg = some ( fbp_ts_initialize w0 { value := v0, frequency := 1000 }).1 →
      fbp_ts_time SECOND ( fbp_ts_initialize w0 { value := v0, frequency := 1000 }).2
        { value := 0, frequency := 1000 } arg = some 0 ∧
      fbp_ts_time SECOND ( fbp_ts_initialize w0 { value := v0, frequency := 1000 }).2
        { value := 60000, frequency := 1000 } arg = some (60 * SECOND) ∧
      fbp_ts_time SECOND
        (fbp_ts_update ( fbp_ts_initialize w0 { value := v0, frequency := 1000 }).2
          { value := 60000, frequency := 1000 }
          ( fbp_ts_initialize w0 { value := v0, frequency := 1000 }).1
          60000 (3600 * SECOND) (3600 * SECOND) 60000)
        { value := 60000, frequency := 1000 } arg = some (3600 * SECOND) ∧
      fbp_ts_time SECOND
        (fbp_ts_update ( fbp_ts_initialize w0 { value := v0, frequency := 1000 }).2
          { value := 60000, frequency := 1000 }
          ( fbp_ts_initialize w0 { value := v0, frequency := 1000 }).1
          60000 (3600 * SECOND) (3600 * SECOND) 60000)
        { value := 61000, frequency := 1000 } arg = some (3600 * SECOND + SECOND)) := by
  have hres : w.resolve (some self) = some ts := by
    simp only [TsWorld.resolve, hself]
  have hmain : fbp_ts_time SECOND w counter (some self)
      = some (ts.anchor_time
          + (counter_sub counter.value ts.anchor_counter : Int) * SECOND / (ts.frequency : Int)) := by
    simp only [fbp_ts_time, hres]
  refine ⟨hmain, fun hd => time_default SECOND w counter self hd, ?_, ?_⟩
  · intro r hr
    rw [hmain] at hr
    injection hr with hr
    subst hr
    have hfz : (0 : Int) < (ts.frequency : Int) := by exact_mod_cast hf
    have h1 := Int.ediv_mul_le ((counter_sub counter.value ts.anchor_counter : Int) * SECOND)
      (ne_of_gt hfz)
    have h2 := Int.lt_ediv_add_one_mul_self
      ((counter_sub counter.value ts.anchor_counter : Int) * SECOND) hfz
    constructor
    · have : ts.anchor_time + (counter_sub counter.value ts.anchor_counter : Int) * SECOND
          / (ts.frequency : Int) - ts.anchor_time
          = (counter_sub counter.value ts.anchor_counter : Int) * SECOND / (ts.frequency : Int) := by
        ring
      rw [this, mul_comm]
      exact h1
    · have : ts.anchor_time + (counter_sub counter.value ts.anchor_counter : Int) * SECOND
          / (ts.frequency : Int) - ts.anchor_time
          = (counter_sub counter.value ts.anchor_counter : Int) * SECOND / (ts.frequency : Int) := by
        ring
      rw [this]
      calc (counter_sub counter.value ts.anchor_counter : Int) * SECOND
          < ((counter_sub counter.value ts.anchor_counter : Int) * SECOND / (ts.frequency : Int) + 1)
              * (ts.frequency : Int) := h2
        _ = _ := by ring
  · intro w0 v0 arg harg
    obtain ⟨hr, hd, hl⟩ := resolve_fresh w0 { value := v0, frequency := 1000 }
    have key : ∀ (wx : TsWorld) (cx : fbp_time_counter_s),
        wx.default_instance = some ( fbp_ts_initialize w0 { value := v0, frequency := 1000 }).1 →
        fbp_ts_time SECOND wx cx arg
          = fbp_ts_time SECOND wx cx
              (some ( fbp_ts_initialize w0 { value := v0, frequency := 1000 }).1) := by
      intro wx cx hdx
      rcases harg with h | h
      · rw [h]
        exact time_default SECOND wx cx _ hdx
      · rw [h]
    have hupd : fbp_ts_update ( fbp_ts_initialize w0 { value := v0, frequency := 1000 }).2
          { value := 60000, frequency := 1000 }
          ( fbp_ts_initialize w0 { value := v0, frequency := 1000 }).1
          60000 (3600 * SECOND) (3600 * SECOND) 60000
        = { instances := ( fbp_ts_initialize w0 { value := v0, frequency := 1000 }).2.instances.set
              ( fbp_ts_initialize w0 { value := v0, frequency := 1000 }).1
              { anchor_counter := 60000, anchor_time := 3600 * SECOND, frequency := 1000 },
            default_instance :=
              ( fbp_ts_initialize w0 { value := v0, frequency := 1000 }).2.default_instance } := by
      have h1 : ¬ (3600 * SECOND > 3600 * SECOND ∨
          counter_sub 60000 60000 ≥ COUNTER_MOD / 2) := by
        simp only [counter_sub, COUNTER_MOD]
        omega
      have h2 : (60000 % COUNTER_MOD + counter_sub 60000 60000 / 2) % COUNTER_MOD = 60000 := by
        decide
      have h3 : 3600 * SECOND + (3600 * SECOND - 3600 * SECOND) / 2 = 3600 * SECOND := by omega
      simp only [fbp_ts_update, hl, if_true, h1, if_false, h2, h3]
    refine ⟨?_, ?_, ?_, ?_⟩
    · rw [key _ _ hd]
      simp only [fbp_ts_time, hr]
      simp [counter_sub]
    · rw [key _ _ hd]
      simp only [fbp_ts_time, hr]
      have : (counter_sub 60000 0 : Int) = 60000 := by decide
      rw [this]
      simp only [Nat.cast_ofNat]
      congr 1
      omega
    · rw [hupd]
      refine (key _ _ ?_).trans ?_
      · exact hd
      exact time_at_anchor SECOND _ _ 60000 1000 1000 (3600 * SECOND) _ hl
    · rw [hupd]
      refine (key _ _ ?_).trans ?_
      · exact hd
      simp only [fbp_ts_time, resolve_set _ _ _ _ hl]
      have : (counter_sub 61000 60000 : Int) = 1000 := by decide
      rw [this]
      simp only [Nat.cast_ofNat]
      congr 1
      omega

/-- C16 with one second equal to `2^30` time units: the fresh engine of
`test_initialize` reads one minute at 60000 ticks, through the instance. -/
theorem ts_time_affine_witness :
    fbp_ts_time 1073741824
        ( fbp_ts_initialize { instances := [], default_instance := none }
            { value := 0, frequency := 1000 }).2
        { value := 60000, frequency := 1000 } (some 0)
      = some (0 + ((counter_sub 60000 0 : Nat) : Int) * 1073741824 / ((1000 : Nat) : Int)) ∧
    (60 : Int) * 1073741824 = 0 + ((counter_sub 60000 0 : Nat) : Int) * 1073741824 / 1000 :=
  ⟨(ts_time_affine 1073741824
      ( fbp_ts_initialize { instances := [], default_instance := none }
          { value := 0, frequency := 1000 }).2
      { value := 60000, frequency := 1000 } 0
      { anchor_counter := 0, anchor_time := 0, frequency := 1000 }
      rfl (by decide)).1,
   by decide⟩

end Fitterbap
